import Mathlib

/-!
Verification development for the TBS news-feed scraper
(`src/parse_to_xml.py` of the repository).

Python strings are modelled as `List Char`; timezone-aware `datetime`
values are modelled by their UTC instant in whole seconds (`Int`) plus,
where microseconds and the display offset matter, by the structure
`PyDateTime`.  Python's floor division `//` and modulo `%` on
nonnegative divisors coincide with Lean's `Int` division and modulo,
which this file uses throughout.
-/

/-! ## Python string helpers -/

/-- Whitespace characters stripped by Python's `str.strip()` (ASCII subset). -/
def pySpace (c : Char) : Bool :=
  c = ' ' ∨ c = '\t' ∨ c = '\n' ∨ c = '\r' ∨ c = '\x0b' ∨ c = '\x0c'

/-- Python `str.lstrip()` (default whitespace). -/
def pyLStrip (s : List Char) : List Char := s.dropWhile pySpace

/-- Python `str.rstrip()` (default whitespace). -/
def pyRStrip (s : List Char) : List Char := (s.reverse.dropWhile pySpace).reverse

/-- Python `str.strip()` (default whitespace). -/
def pyStrip (s : List Char) : List Char := pyRStrip (pyLStrip s)

/-- Python `str.lower()` (ASCII behaviour). -/
def pyLower (s : List Char) : List Char := s.map Char.toLower

/-- ASCII decimal digit test (`\d` on the inputs of interest). -/
def isDigitChar (c : Char) : Bool := '0' ≤ c ∧ c ≤ '9'

/-- Numeric value of a run of ASCII digits, `int()` on an all-digit string. -/
def natOfDigits (ds : List Char) : Nat :=
  ds.foldl (fun a c => 10 * a + (c.toNat - 48)) 0

/-! ## Data model

`FeedItem` is one `<item>` of a persisted feed as the Python code
manipulates it (`title`, `link`, `description`, `pubDate`, enclosure
image URL); `pubDate` is the UTC instant in whole seconds, the
granularity at which the code stores dates in XML.  `Article` is one
raw record scraped from the HTML by `scrape_articles`. -/

structure FeedItem where
  title : List Char
  link : List Char
  description : List Char
  pubDate : Int
  img : List Char
deriving DecidableEq

structure Article where
  url : List Char
  title : List Char
  desc : List Char
  pub : Int
  img : List Char
deriving DecidableEq

/-- `MAX_ITEMS` of `parse_to_xml.py`. -/
def MAX_ITEMS : Nat := 500

/-- `MAX_ITEMS_PER_DAILY` of `parse_to_xml.py`. -/
def MAX_ITEMS_PER_DAILY : Nat := 100

/-! ## Main-feed merge (`update_main_xml`, lines 268-314)

The code collects `existing = {link.text.strip() for item in channel}`,
then for each scraped article skips it when `art["url"]` (not stripped)
is in `existing`, otherwise builds an item, adds the exact `art["url"]`
to `existing` and queues the item; the queued items are inserted as a
block at the head of the channel, and finally the channel is trimmed to
its first `MAX_ITEMS` items. -/

/-- The initial dedup set of `update_main_xml`: the stripped link text of
every existing channel item. -/
def strippedLinks (feed : List FeedItem) : List (List Char) :=
  feed.map (fun it => pyStrip it.link)

/-- The article loop of `update_main_xml`: returns the queued new items
(in batch order) and `new_count`. -/
def mergeNew (existing : List (List Char)) : List Article → List FeedItem × Nat
  | [] => ([], 0)
  | a :: rest =>
    if a.url ∈ existing then mergeNew existing rest
    else
      let r := mergeNew (a.url :: existing) rest
      (⟨a.title, a.url, a.desc, a.pub, a.img⟩ :: r.1, r.2 + 1)

/-- The merge step of `update_main_xml`: new unique articles are placed,
in extraction order, as a block before all previously existing items. -/
def update_main_merge (feed : List FeedItem) (articles : List Article) :
    List FeedItem × Nat :=
  let r := mergeNew (strippedLinks feed) articles
  (r.1 ++ feed, r.2)

/-- The trim step of `update_main_xml` (lines 308-314): when the channel
exceeds `MAX_ITEMS`, the items past the first `MAX_ITEMS` are removed. -/
def trimFeed (feed : List FeedItem) : List FeedItem :=
  if feed.length > MAX_ITEMS then feed.take MAX_ITEMS else feed

/-- A concrete article whose URL carries leading whitespace, defeating the
strip-on-read / exact-on-insert dedup of `update_main_xml`. -/
def untrimmedArticle : Article :=
  ⟨[' ', 'a'], ['T'], [], 0, []⟩

/-- Feeds producible by the system's own mutating operations, starting
from the empty feed: the merge step of `update_main_xml` (with batches
whose URLs are whitespace-trimmed) and the trim step. -/
inductive ProducedFeed : List FeedItem → Prop
  | empty : ProducedFeed []
  | merge (feed : List FeedItem) (batch : List Article) :
      ProducedFeed feed → (∀ a ∈ batch, pyStrip a.url = a.url) →
      ProducedFeed (update_main_merge feed batch).1
  | trim (feed : List FeedItem) :
      ProducedFeed feed → ProducedFeed (trimFeed feed)

/-! ## Daily delta feed (`update_daily`, lines 328-409)

The code computes `cutoff_dt` from the persisted watermark (or `now -
24h` on first run), scans the master items once selecting those with
`pubDate > cutoff` whose link was not already selected in the same scan,
and if the selection is empty writes a single placeholder file and saves
`now` as the watermark; otherwise it sorts the selection descending by
`pubDate` (Python's stable sort), splits it into consecutive chunks of
`MAX_ITEMS_PER_DAILY`, writes chunk 0 as `daily_feed.xml` and chunk k
(k ≥ 1) as `daily_feed_{k+1}.xml`, and saves the maximum `pubDate` of
the full selection as the watermark. -/

/-- The selection loop of `update_daily` (lines 348-359): `seen` is the
`seen_links` set, grown only when an item is selected. -/
def selectGo (cutoff : Int) : List FeedItem → List (List Char) → List FeedItem
  | [], _ => []
  | i :: rest, seen =>
    if i.link ∈ seen then selectGo cutoff rest seen
    else if cutoff < i.pubDate then i :: selectGo cutoff rest (i.link :: seen)
    else selectGo cutoff rest seen

/-- The full selection of `update_daily`, started with an empty seen set. -/
def selectAfter (cutoff : Int) (master : List FeedItem) : List FeedItem :=
  selectGo cutoff master []

/-- The cutoff of `update_daily` (lines 337-342): the persisted watermark
when present, else `now - 24h`. -/
def cutoffOf (lastSeen : Option Int) (now : Int) : Int :=
  match lastSeen with
  | some t => t
  | none => now - 24 * 3600

/-- Stable-descending insertion: the later-inserted element goes after
equal keys, matching Python's stable `list.sort(key=pubDate,
reverse=True)`. -/
def insertByPubDesc (x : FeedItem) : List FeedItem → List FeedItem
  | [] => [x]
  | y :: ys => if y.pubDate ≤ x.pubDate then x :: y :: ys else y :: insertByPubDesc x ys

/-- Stable sort of the selection, descending by `pubDate` (line 379). -/
def sortByPubDesc : List FeedItem → List FeedItem
  | [] => []
  | x :: xs => insertByPubDesc x (sortByPubDesc xs)

/-- The batch split of lines 382-384: consecutive chunks of `n` items. -/
def chunksOf (n : Nat) (l : List FeedItem) : List (List FeedItem) :=
  if h : n = 0 ∨ l = [] then [] else l.take n :: chunksOf n (l.drop n)
termination_by l.length
decreasing_by
  push_neg at h
  simp only [List.length_drop]
  have : l.length ≠ 0 := fun hc => h.2 (List.eq_nil_of_length_eq_zero hc)
  omega

/-- The output file name of batch `idx` (lines 389-393). -/
def dailyFileName (idx : Nat) : String :=
  if idx = 0 then "daily_feed.xml" else "daily_feed_" ++ toString (idx + 1) ++ ".xml"

/-- The channel title of batch `idx` (lines 391-394). -/
def dailyTitle (idx : Nat) : String :=
  if idx = 0 then "Daily Feed - The Business Standard"
  else "Daily Feed " ++ toString (idx + 1) ++ " - The Business Standard"

/-- The `enumerate(batches)` loop of lines 388-399: one
(filename, title, items) triple per batch. -/
def filesOfBatches (idx : Nat) : List (List FeedItem) →
    List (String × String × List FeedItem)
  | [] => []
  | b :: rest => (dailyFileName idx, dailyTitle idx, b) :: filesOfBatches (idx + 1) rest

/-- The synthetic record of the empty-selection branch (lines 362-368). -/
def placeholderItem (now : Int) : FeedItem :=
  ⟨"No new articles since last update".toList,
   "https://www.tbsnews.net".toList,
   "Daily feed will populate when new articles are published.".toList,
   now, []⟩

/-- Python's `max` over a nonempty list (line 402); `0` on `[]`, where the
source would raise (unreachable: guarded by the empty-selection branch). -/
def listMax1 : List Int → Int
  | [] => 0
  | x :: xs => xs.foldl max x

/-- The outcome of one `update_daily` run: the delta files written and the
watermark passed to `save_last_seen`. -/
structure DailyResult where
  files : List (String × String × List FeedItem)
  lastSeenSaved : Int
deriving DecidableEq

/-- `update_daily` of `parse_to_xml.py`, at the level of the records it
writes: `master` is the item list loaded from `articles.xml`. -/
def update_daily (master : List FeedItem) (lastSeen : Option Int)
    (now : Int) : DailyResult :=
  let cutoff := cutoffOf lastSeen now
  let newItems := selectAfter cutoff master
  if newItems = [] then
    { files := [(dailyFileName 0, dailyTitle 0, [placeholderItem now])],
      lastSeenSaved := now }
  else
    let sorted := sortByPubDesc newItems
    let batches := chunksOf MAX_ITEMS_PER_DAILY sorted
    { files := filesOfBatches 0 batches,
      lastSeenSaved := listMax1 (sorted.map FeedItem.pubDate) }

/-- First-occurrence deduplication by link, the spec's description of the
duplicate guard ("skipping any item whose url was already selected"). -/
def dedupFirstByLink (seen : List (List Char)) : List FeedItem → List FeedItem
  | [] => []
  | i :: rest =>
    if i.link ∈ seen then dedupFirstByLink seen rest
    else i :: dedupFirstByLink (i.link :: seen) rest

/-- An item of the claim C1 example feed: link is the single character
indexed by `k`, publication instant `p`. -/
def c1Item (k : Nat) (p : Int) : FeedItem := ⟨[], [Char.ofNat (97 + k)], [], p, []⟩

/-- The claim C1 example feed: items at instants
t-3h, t-1h, t, t+2h, t+5h with distinct links. -/
def c1Feed (t : Int) : List FeedItem :=
  [c1Item 0 (t - 3 * 3600), c1Item 1 (t - 3600), c1Item 2 t,
   c1Item 3 (t + 2 * 3600), c1Item 4 (t + 5 * 3600)]

/-! ## Proleptic Gregorian calendar

Models the civil-field / epoch-instant conversions performed by Python's
`datetime` library (an external dependency of `parse_to_xml.py`).  Days
count from the Unix epoch 1970-01-01; the decomposition follows the
standard era/year-of-era/day-of-year arithmetic for the proleptic
Gregorian calendar.  All divisions are Lean `Int` division, which on the
positive divisors used here is floor division, matching Python `//`. -/

/-- Year of era (0..399) from day of era (0..146096). -/
def yoeOfDoe (doe : Int) : Int :=
  (doe - doe / 1460 + doe / 36524 - doe / 146096) / 365

/-- Day of year (0..365, counted from March 1) from day of era. -/
def doyOfDoe (doe : Int) : Int :=
  doe - (365 * yoeOfDoe doe + yoeOfDoe doe / 4 - yoeOfDoe doe / 100)

/-- Shifted month (0 = March .. 11 = February) from day of year. -/
def mpOfDoy (doy : Int) : Int := (5 * doy + 2) / 153

/-- Calendar year of epoch day `z`. -/
def civilYearOfDays (z : Int) : Int :=
  let doe := (z + 719468) % 146097
  let era := (z + 719468) / 146097
  let mp := mpOfDoy (doyOfDoe doe)
  let m := if mp < 10 then mp + 3 else mp - 9
  if m ≤ 2 then yoeOfDoe doe + era * 400 + 1 else yoeOfDoe doe + era * 400

/-- Calendar month (1..12) of epoch day `z`. -/
def civilMonthOfDays (z : Int) : Int :=
  let mp := mpOfDoy (doyOfDoe ((z + 719468) % 146097))
  if mp < 10 then mp + 3 else mp - 9

/-- Calendar day of month (1..31) of epoch day `z`. -/
def civilDayOfDays (z : Int) : Int :=
  let doy := doyOfDoe ((z + 719468) % 146097)
  doy - (153 * mpOfDoy doy + 2) / 5 + 1

/-- Epoch day of a civil date. -/
def daysFromCivil (y m d : Int) : Int :=
  let y2 := if m ≤ 2 then y - 1 else y
  let era := y2 / 400
  let yoe := y2 - era * 400
  let doy := (153 * (m + (if 2 < m then -3 else 9)) + 2) / 5 + d - 1
  let doe := yoe * 365 + yoe / 4 - yoe / 100 + doy
  era * 146097 + doe - 719468

/-- UTC epoch seconds of a civil date-time. -/
def secsFromCivil (y mo d hh mi ss : Int) : Int :=
  86400 * daysFromCivil y mo d + 3600 * hh + 60 * mi + ss

/-- Calendar year of UTC epoch second `e`. -/
def civilYearOfSecs (e : Int) : Int := civilYearOfDays (e / 86400)

/-- Calendar month of UTC epoch second `e`. -/
def civilMonthOfSecs (e : Int) : Int := civilMonthOfDays (e / 86400)

/-- Calendar day of month of UTC epoch second `e`. -/
def civilDayOfSecs (e : Int) : Int := civilDayOfDays (e / 86400)

/-- Hour of day of UTC epoch second `e`. -/
def hourOfSecs (e : Int) : Int := e % 86400 / 3600

/-- Minute of hour of UTC epoch second `e`. -/
def minuteOfSecs (e : Int) : Int := e % 86400 % 3600 / 60

/-- Second of minute of UTC epoch second `e`. -/
def secondOfSecs (e : Int) : Int := e % 86400 % 60

/-- Python `date.weekday()` (Monday = 0) of epoch day `z`;
1970-01-01 was a Thursday. -/
def weekdayOfDays (z : Int) : Int := (z + 3) % 7

/-! ## Tokenization helpers (Python `str.split`) -/

/-- Accumulator loop for `str.split()` (no argument: runs of whitespace
separate tokens, no empty tokens). -/
def splitWsAux : List Char → List Char → List (List Char)
  | [], acc => if acc.isEmpty then [] else [acc.reverse]
  | c :: cs, acc =>
    if pySpace c then
      if acc.isEmpty then splitWsAux cs [] else acc.reverse :: splitWsAux cs []
    else splitWsAux cs (c :: acc)

/-- Python `str.split()` with no argument. -/
def splitWs (s : List Char) : List (List Char) := splitWsAux s []

/-- Accumulator loop for `str.split(sep)` (single-character sep, keeps
empty pieces). -/
def splitChAux (sep : Char) : List Char → List Char → List (List Char)
  | [], acc => [acc.reverse]
  | c :: cs, acc =>
    if c = sep then acc.reverse :: splitChAux sep cs []
    else splitChAux sep cs (c :: acc)

/-- Python `str.split(sep)` for a one-character separator. -/
def splitOnChar (sep : Char) (s : List Char) : List (List Char) :=
  splitChAux sep s []

/-- Python `int()` on a token: succeeds on a nonempty all-digit string.
(The leniency of `int()` towards surrounding whitespace and a sign is
handled separately where the source can feed such tokens.) -/
def parseNatAll (s : List Char) : Option Nat :=
  if s ≠ [] ∧ s.all isDigitChar then some (natOfDigits s) else none

/-- Python `int()` on a possibly sign-prefixed token. -/
def parseIntSigned (s : List Char) : Option Int :=
  match s with
  | c :: rest =>
    if c = '+' then (parseNatAll rest).map (fun n => (n : Int))
    else if c = '-' then (parseNatAll rest).map (fun n => -(n : Int))
    else (parseNatAll (c :: rest)).map (fun n => (n : Int))
  | [] => none

/-! ## Model of `email.utils.parsedate_to_datetime`

`parse_date_from_text` first tries `parsedate_to_datetime` (RFC-822-style
date strings).  The model below follows `email._parseaddr._parsedate_tz`:
split on whitespace; drop a leading day-name token (one ending in a comma
or equal to a day name); expect day, month-name, year, time and an
optional numeric zone token; apply the two-digit-year rule; then apply
the `datetime` constructor's range validation and convert to a UTC
instant (a timezone-naive result is assumed UTC by the caller, an aware
one is shifted by its offset — both are absorbed into the returned
instant).  Simplifications, none of which is exercised by the theorems
below: the day-of-month upper bound is 31 for every month (the
constructor also checks it against the month's length), the named-zone
table, the RFC-850 dashed-date form, the dotted-time form and the
interior-comma slicing of the first token are not modelled. -/

def monthAbbrevsLower : List (List Char) :=
  ["jan", "feb", "mar", "apr", "may", "jun",
   "jul", "aug", "sep", "oct", "nov", "dec"].map String.toList

def monthFullLower : List (List Char) :=
  ["january", "february", "march", "april", "may", "june", "july",
   "august", "september", "october", "november", "december"].map String.toList

def dayNamesLower : List (List Char) :=
  ["mon", "tue", "wed", "thu", "fri", "sat", "sun"].map String.toList

def findIdx1 (x : List Char) : List (List Char) → Nat → Option Nat
  | [], _ => none
  | y :: ys, k => if x = y then some k else findIdx1 x ys (k + 1)

/-- `_monthnames.index(mm) + 1` with the `mm -= 12` wrap for full names. -/
def monthIndex (m : List Char) : Option Nat :=
  match findIdx1 m (monthAbbrevsLower ++ monthFullLower) 0 with
  | some k => some (if 12 < k + 1 then k + 1 - 12 else k + 1)
  | none => none

structure ParsedTz where
  yy : Int
  mm : Int
  dd : Int
  thh : Int
  tmm : Int
  tss : Int
  tzoff : Option Int
deriving DecidableEq

def stripTrailingComma (s : List Char) : List Char :=
  if s.getLast? = some ',' then s.dropLast else s

/-- The zone-token handling of `_parsedate_tz`: a numeric `±HHMM` token
becomes an offset in seconds; `-0000` and unparsable tokens leave the
result timezone-naive. -/
def tzOffsetOfToken (tz : List Char) : Option Int :=
  if tz = [] then none
  else
    match parseIntSigned tz with
    | none => none
    | some n =>
      if n = 0 ∧ tz.head? = some '-' then none
      else if n = 0 then some 0
      else
        let a := if n < 0 then -n else n
        let sgn : Int := if n < 0 then -1 else 1
        some (sgn * (a / 100 * 3600 + a % 100 * 60))

def parseTimeTok (tm : List Char) : Option (Nat × Nat × Nat) :=
  match splitOnChar ':' tm with
  | [hT, mT] =>
    match parseNatAll hT, parseNatAll mT with
    | some h, some m => some (h, m, 0)
    | _, _ => none
  | [hT, mT, sT] =>
    match parseNatAll hT, parseNatAll mT, parseNatAll sT with
    | some h, some m, some s2 => some (h, m, s2)
    | _, _, _ => none
  | _ => none

def parsedateGo (ddTok : List Char) (mm : Nat) (yyTok tmTok tzTok : List Char) :
    Option ParsedTz :=
  match parseNatAll (stripTrailingComma ddTok),
        parseNatAll (stripTrailingComma yyTok),
        parseTimeTok (stripTrailingComma tmTok) with
  | some dd, some yy0, some hms =>
    let yy : Nat :=
      if yy0 < 100 then (if 68 < yy0 then yy0 + 1900 else yy0 + 2000) else yy0
    some ⟨(yy : Int), (mm : Int), (dd : Int),
      (hms.1 : Int), (hms.2.1 : Int), (hms.2.2 : Int), tzOffsetOfToken tzTok⟩
  | _, _, _ => none

/-- Month-name resolution of `_parsedate_tz`, including its swap of the
day and month tokens when the month name sits in the day position. -/
def parsedateFields (ddTok monTok yyTok tmTok tzTok : List Char) :
    Option ParsedTz :=
  match monthIndex (pyLower monTok) with
  | some mm => parsedateGo ddTok mm yyTok tmTok tzTok
  | none =>
    match monthIndex (pyLower ddTok) with
    | some mm => parsedateGo monTok mm yyTok tmTok tzTok
    | none => none

def parsedate_tz (s : List Char) : Option ParsedTz :=
  match splitWs s with
  | [] => none
  | w :: rest =>
    let data :=
      if w.getLast? = some ',' ∨ pyLower w ∈ dayNamesLower then rest
      else w :: rest
    match data with
    | [ddTok, monTok, yyTok, tmTok, tzTok] =>
      parsedateFields ddTok monTok yyTok tmTok tzTok
    | [ddTok, monTok, yyTok, tmTok] =>
      parsedateFields ddTok monTok yyTok tmTok []
    | _ => none

/-- `parsedate_to_datetime` composed with the caller's normalization in
`parse_date_from_text` (a naive result is assumed UTC, an aware one is
converted to UTC): the returned value is the UTC instant in seconds. -/
def parsedate_to_datetime (s : List Char) : Option Int :=
  match parsedate_tz s with
  | none => none
  | some p =>
    if 1 ≤ p.yy ∧ p.yy ≤ 9999 ∧ 1 ≤ p.mm ∧ p.mm ≤ 12 ∧ 1 ≤ p.dd ∧ p.dd ≤ 31 ∧
        0 ≤ p.thh ∧ p.thh ≤ 23 ∧ 0 ≤ p.tmm ∧ p.tmm ≤ 59 ∧
        0 ≤ p.tss ∧ p.tss ≤ 59 then
      match p.tzoff with
      | none => some (secsFromCivil p.yy p.mm p.dd p.thh p.tmm p.tss)
      | some off => some (secsFromCivil p.yy p.mm p.dd p.thh p.tmm p.tss - off)
    else none

/-! ## Models of the three `strptime` formats of `parse_date_from_text`

Each parses its fixed format (whitespace handling is the tokenized
approximation of the `%`-directive regexes) and, per the source, the
result is interpreted as UTC.  The day-of-month upper bound is again
simplified to 31. -/

def monthAbbrevIndex (m : List Char) : Option Nat :=
  (findIdx1 m monthAbbrevsLower 0).map (fun k => k + 1)

/-- `"%b %d, %Y %I:%M %p"` (e.g. `Dec 12, 2025 01:27 PM`). -/
def strptime_mdY_IMp (s : List Char) : Option Int :=
  match splitWs s with
  | [monTok, ddTok, yTok, tmTok, apTok] =>
    if ddTok.getLast? = some ',' ∧ yTok.length = 4 then
      match monthAbbrevIndex (pyLower monTok), parseNatAll ddTok.dropLast,
            parseNatAll yTok, splitOnChar ':' tmTok with
      | some mm, some dd, some yy, [hT, mT] =>
        match parseNatAll hT, parseNatAll mT with
        | some h12, some mi =>
          let ap := pyLower apTok
          if (ap = "am".toList ∨ ap = "pm".toList) ∧
              1 ≤ h12 ∧ h12 ≤ 12 ∧ mi ≤ 59 ∧ 1 ≤ dd ∧ dd ≤ 31 then
            let hh : Nat :=
              if ap = "pm".toList then (if h12 = 12 then 12 else h12 + 12)
              else (if h12 = 12 then 0 else h12)
            some (secsFromCivil (yy : Int) (mm : Int) (dd : Int)
              (hh : Int) (mi : Int) 0)
          else none
        | _, _ => none
      | _, _, _, _ => none
    else none
  | _ => none

/-- `"%d %b %Y %H:%M:%S"` (e.g. `12 Dec 2025 01:27:00`). -/
def strptime_dBY_HMS (s : List Char) : Option Int :=
  match splitWs s with
  | [ddTok, monTok, yTok, tmTok] =>
    if yTok.length = 4 then
      match parseNatAll ddTok, monthAbbrevIndex (pyLower monTok),
            parseNatAll yTok, splitOnChar ':' tmTok with
      | some dd, some mm, some yy, [hT, mT, sT] =>
        match parseNatAll hT, parseNatAll mT, parseNatAll sT with
        | some hh, some mi, some ss =>
          if 1 ≤ dd ∧ dd ≤ 31 ∧ hh ≤ 23 ∧ mi ≤ 59 ∧ ss ≤ 59 then
            some (secsFromCivil (yy : Int) (mm : Int) (dd : Int)
              (hh : Int) (mi : Int) (ss : Int))
          else none
        | _, _, _ => none
      | _, _, _, _ => none
    else none
  | _ => none

/-- `"%Y-%m-%d %H:%M:%S"` (e.g. `2025-12-12 01:27:00`). -/
def strptime_Ymd_HMS (s : List Char) : Option Int :=
  match splitWs s with
  | [dTok, tmTok] =>
    match splitOnChar '-' dTok, splitOnChar ':' tmTok with
    | [yT, mT, ddT], [hT, miT, sT] =>
      if yT.length = 4 then
        match parseNatAll yT, parseNatAll mT, parseNatAll ddT,
              parseNatAll hT, parseNatAll miT, parseNatAll sT with
        | some yy, some mm, some dd, some hh, some mi, some ss =>
          if 1 ≤ mm ∧ mm ≤ 12 ∧ 1 ≤ dd ∧ dd ≤ 31 ∧ hh ≤ 23 ∧ mi ≤ 59 ∧ ss ≤ 59 then
            some (secsFromCivil (yy : Int) (mm : Int) (dd : Int)
              (hh : Int) (mi : Int) (ss : Int))
          else none
        | _, _, _, _, _, _ => none
      else none
    | _, _ => none
  | _ => none

/-! ## Time Normalizer (`parse_relative_time`, `parse_date_from_text`)

The guard `re.match(r'\d+\s*[mhd]', text)` is an *anchored prefix*
match, not a full match: it succeeds exactly when the text starts with
one or more digits, then optional whitespace, then one of `m`, `h`, `d`
— regex backtracking cannot find any other successful split, since a
digit given back by `\d+` matches neither `\s*` nor `[mhd]`, and
`group(1)` is therefore the maximal leading digit run. -/

/-- The guard regex of `parse_date_from_text` line 51, applied to the
stripped and lowered text. -/
def matchesRelative (t : List Char) : Bool :=
  let ds := t.takeWhile isDigitChar
  let rest := (t.dropWhile isDigitChar).dropWhile pySpace
  decide (ds ≠ []) &&
    (match rest.head? with
     | some c => c = 'm' ∨ c = 'h' ∨ c = 'd'
     | none => false)

/-- `parse_relative_time` of `parse_to_xml.py` (lines 25-43): `now` is
the current UTC instant. -/
def parse_relative_time (now : Int) (time_text : List Char) : Int :=
  let t := pyLower (pyStrip time_text)
  let ds := t.takeWhile isDigitChar
  let rest := (t.dropWhile isDigitChar).dropWhile pySpace
  if ds = [] then now
  else
    match rest.head? with
    | some 'm' => now - 60 * (natOfDigits ds : Int)
    | some 'h' => now - 3600 * (natOfDigits ds : Int)
    | some 'd' => now - 86400 * (natOfDigits ds : Int)
    | _ => now

/-- `parse_date_from_text` of `parse_to_xml.py` (lines 45-77): empty
input, the relative-shorthand guard, `parsedate_to_datetime`, then the
three explicit formats, falling back to `now`. -/
def parse_date_from_text (now : Int) (date_text : List Char) : Int :=
  if date_text = [] then now
  else if matchesRelative (pyLower (pyStrip date_text)) then
    parse_relative_time now date_text
  else
    match parsedate_to_datetime date_text with
    | some v => v
    | none =>
      match strptime_mdY_IMp date_text with
      | some v => v
      | none =>
        match strptime_dBY_HMS date_text with
        | some v => v
        | none =>
          match strptime_Ymd_HMS date_text with
          | some v => v
          | none => now

/-! ## Whole-run state (`__main__`, lines 414-444)

For claim C2 the run is modelled at the level of the persisted artifacts
it can touch: the parsed article cards of `news.html` (`none` when the
file is absent — `scrape_articles` then returns `[]`), the main feed,
the daily feed files and the watermark. -/

structure SysState where
  htmlCards : Option (List Article)
  mainFeed : List FeedItem
  dailyFiles : List (String × String × List FeedItem)
  lastSeen : Option Int
deriving DecidableEq

/-- `scrape_articles` (lines 171-236): an absent `news.html` yields `[]`. -/
def scrape_articles (s : SysState) : List Article :=
  match s.htmlCards with
  | none => []
  | some arts => arts

/-- `update_main_xml` as a state transformer: an empty scrape returns
early without touching the feed; otherwise merge then trim. -/
def update_main_run (s : SysState) : SysState :=
  let articles := scrape_articles s
  if articles = [] then s
  else { s with mainFeed := trimFeed (update_main_merge s.mainFeed articles).1 }

/-- `update_daily` as a state transformer: reads the main feed and the
watermark, writes the daily files and the new watermark. -/
def update_daily_run (s : SysState) (now : Int) : SysState :=
  let r := update_daily s.mainFeed s.lastSeen now
  { s with dailyFiles := r.files, lastSeen := some r.lastSeenSaved }

/-- The default `__main__` path (lines 429-433): `update_main_xml()`
followed unconditionally by `update_daily()`. -/
def run_default (s : SysState) (now : Int) : SysState :=
  update_daily_run (update_main_run s) now

/-! ## Digit printing helpers -/

/-- The ASCII digit character of `n` (0..9). -/
def digitChar (n : Int) : Char := Char.ofNat (48 + n.toNat)

/-- Two-digit zero-padded decimal (strftime `%d`, `%H`, `%M`, `%S`). -/
def pad2 (n : Int) : List Char := [digitChar (n / 10), digitChar (n % 10)]

/-- Four-digit decimal (strftime `%Y` for years 1000..9999). -/
def pad4 (n : Int) : List Char :=
  [digitChar (n / 1000), digitChar (n / 100 % 10),
   digitChar (n / 10 % 10), digitChar (n % 10)]

/-! ## Watermark persistence (`save_last_seen`, lines 160-166)

`save_last_seen` opens `last_seen.json` with mode `"w"` — truncating the
file in place — and then writes the JSON body into the same handle.
There is no temporary file and no rename, so the write is modelled as
the operation sequence [truncate, write]; a crash between the two leaves
an empty file where the previous watermark used to be. -/

def LAST_SEEN_FILE : String := "last_seen.json"

inductive FsOp where
  | truncateOpen (path : String)
  | writeAll (path : String) (content : List Char)
  | renameTo (src dst : String)
deriving DecidableEq

/-- Effect of one file operation on a path-to-content map. -/
def applyFsOp (fs : String → Option (List Char)) : FsOp → String → Option (List Char)
  | FsOp.truncateOpen p, q => if q = p then some [] else fs q
  | FsOp.writeAll p c, q => if q = p then some (((fs p).getD []) ++ c) else fs q
  | FsOp.renameTo src dst, q =>
    if q = dst then fs src else if q = src then none else fs q

def applyFsOps (ops : List FsOp) (fs : String → Option (List Char)) :
    String → Option (List Char) :=
  ops.foldl applyFsOp fs

/-- `datetime.isoformat()` of a UTC instant at second granularity. -/
def isoFormatUTC (t : Int) : List Char :=
  pad4 (civilYearOfSecs t) ++ '-' :: pad2 (civilMonthOfSecs t) ++
    '-' :: pad2 (civilDayOfSecs t) ++ 'T' :: pad2 (hourOfSecs t) ++
    ':' :: pad2 (minuteOfSecs t) ++ ':' :: pad2 (secondOfSecs t) ++
    "+00:00".toList

/-- The JSON body written by `save_last_seen` (`json.dump` with
`indent=2`). -/
def lastSeenJson (lastDt now : Int) : List Char :=
  "\x7b\n  \"last_seen\": \"".toList ++ isoFormatUTC lastDt ++
    "\",\n  \"last_run\": \"".toList ++ isoFormatUTC now ++
    "\"\n\x7d".toList

/-- The operation sequence performed by `save_last_seen`: open-truncate
the target file itself, then write the body. -/
def save_last_seen_ops (lastDt now : Int) : List FsOp :=
  [FsOp.truncateOpen LAST_SEEN_FILE,
   FsOp.writeAll LAST_SEEN_FILE (lastSeenJson lastDt now)]

/-- A file system whose watermark file holds the previous content
`"PREV"`. -/
def c4PrevFs : String → Option (List Char) :=
  fun q => if q = LAST_SEEN_FILE then some ("PREV".toList) else none

/-! ## RSS serialization (`write_rss`, lines 117-142) and reload
(`load_existing`, lines 79-115)

`write_rss` emits, per item, `<title>`, `<link>`, `<description>`, a
`<pubDate>` of `pub.strftime("%a, %d %b %Y %H:%M:%S %z")`, and an
`<enclosure url=...>` only when the item has an image.  `load_existing`
reads the items back, stripping the title and link text, parsing the
pubDate text through `parse_date_from_text`, and taking the enclosure's
`url` attribute (defaulting to `""`).  The XML element syntax itself
(tags, escaping, pretty-printing — `xml.etree`/`minidom` territory) is
abstracted into the per-item field record `XmlItem`. -/

/-- A timezone-aware Python `datetime`: its UTC instant in seconds, its
microseconds, and its fixed-offset timezone in minutes.  Equality and
order of aware datetimes compare instants, which this representation
makes structural. -/
structure PyDateTime where
  sec : Int
  usec : Nat
  offMin : Int
deriving DecidableEq

/-- An item dict as passed to `write_rss`. -/
structure RssItemIn where
  title : List Char
  link : List Char
  description : List Char
  pubDate : PyDateTime
  img : List Char
deriving DecidableEq

/-- One serialized `<item>` element. -/
structure XmlItem where
  title : List Char
  link : List Char
  description : List Char
  pubDateText : List Char
  enclosureUrl : Option (List Char)
deriving DecidableEq

/-- strftime `%b` month abbreviation. -/
def monthName (m : Int) : List Char :=
  if m = 1 then "Jan".toList else if m = 2 then "Feb".toList
  else if m = 3 then "Mar".toList else if m = 4 then "Apr".toList
  else if m = 5 then "May".toList else if m = 6 then "Jun".toList
  else if m = 7 then "Jul".toList else if m = 8 then "Aug".toList
  else if m = 9 then "Sep".toList else if m = 10 then "Oct".toList
  else if m = 11 then "Nov".toList else if m = 12 then "Dec".toList
  else []

/-- strftime `%a` day abbreviation, indexed by Python `weekday()`
(Monday = 0). -/
def dayNameOf (w : Int) : List Char :=
  if w = 0 then "Mon".toList else if w = 1 then "Tue".toList
  else if w = 2 then "Wed".toList else if w = 3 then "Thu".toList
  else if w = 4 then "Fri".toList else if w = 5 then "Sat".toList
  else if w = 6 then "Sun".toList
  else []

/-- strftime `%z` for a whole-minute offset: sign then `HHMM`. -/
def offsetString (offMin : Int) : List Char :=
  let a := if offMin < 0 then -offMin else offMin
  (if offMin < 0 then '-' else '+') :: (pad2 (a / 60) ++ pad2 (a % 60))

/-- Concatenation of tokens with single spaces, the shape of the format
string `"%a, %d %b %Y %H:%M:%S %z"`. -/
def joinSpace : List (List Char) → List Char
  | [] => []
  | [t] => t
  | t :: ts => t ++ ' ' :: joinSpace ts

/-- `pub.strftime("%a, %d %b %Y %H:%M:%S %z")`: civil fields are taken
in the datetime's own timezone (instant shifted by the offset); `%z`
prints the offset itself. -/
def strftimeRfc822 (dt : PyDateTime) : List Char :=
  let loc := dt.sec + dt.offMin * 60
  joinSpace
    [dayNameOf (weekdayOfDays (loc / 86400)) ++ [','],
     pad2 (civilDayOfSecs loc),
     monthName (civilMonthOfSecs loc),
     pad4 (civilYearOfSecs loc),
     pad2 (hourOfSecs loc) ++ ':' :: pad2 (minuteOfSecs loc) ++
       ':' :: pad2 (secondOfSecs loc),
     offsetString dt.offMin]

/-- `write_rss` at item level: titles, links and descriptions verbatim;
the pubDate serialized at second granularity; an enclosure only for a
nonempty image URL. -/
def write_rss (items : List RssItemIn) : List XmlItem :=
  items.map (fun it =>
    { title := it.title, link := it.link, description := it.description,
      pubDateText := strftimeRfc822 it.pubDate,
      enclosureUrl := if it.img ≠ [] then some it.img else none })

/-- `load_existing` at item level: strips title and link text, parses the
pubDate text (falling back to `now` when absent), reads the enclosure
URL. -/
def load_existing (now : Int) (xs : List XmlItem) : List FeedItem :=
  xs.map (fun x =>
    { title := pyStrip x.title, link := pyStrip x.link,
      description := x.description,
      pubDate :=
        if x.pubDateText ≠ [] then parse_date_from_text now x.pubDateText
        else now,
      img := x.enclosureUrl.getD [] })

/-- Domain on which the serialization round-trips: the offset is a whole
number of minutes strictly within a day (Python requires offsets
strictly between -24h and +24h; second-resolution offsets would make
`%z` emit a longer form) and the local calendar year is four digits. -/
def ValidPubDate (dt : PyDateTime) : Prop :=
  -1439 ≤ dt.offMin ∧ dt.offMin ≤ 1439 ∧
  1000 ≤ civilYearOfSecs (dt.sec + dt.offMin * 60) ∧
  civilYearOfSecs (dt.sec + dt.offMin * 60) ≤ 9999

instance (dt : PyDateTime) : Decidable (ValidPubDate dt) := by
  unfold ValidPubDate
  infer_instance

/-! ### Lemmas about the merge -/

theorem mergeNew_skips_of_mem (existing : List (List Char)) :
    ∀ batch : List Article, (∀ a ∈ batch, a.url ∈ existing) →
      mergeNew existing batch = ([], 0) := by
  intro batch
  induction batch generalizing existing with
  | nil => intro _; rfl
  | cons a rest ih =>
    intro h
    have ha : a.url ∈ existing := h a (List.mem_cons_self a rest)
    simp only [mergeNew, if_pos ha]
    exact ih existing (fun b hb => h b (List.mem_cons_of_mem a hb))

theorem mergeNew_url_covered (existing : List (List Char)) :
    ∀ batch : List Article, ∀ a ∈ batch,
      a.url ∈ existing ∨ a.url ∈ (mergeNew existing batch).1.map FeedItem.link := by
  intro batch
  induction batch generalizing existing with
  | nil => intro a ha; cases ha
  | cons b rest ih =>
    intro a ha
    rcases List.mem_cons.mp ha with rfl | ha'
    · by_cases hb : a.url ∈ existing
      · exact Or.inl hb
      · right
        simp only [mergeNew, if_neg hb]
        exact List.mem_cons_self _ _
    · by_cases hb : b.url ∈ existing
      · simpa only [mergeNew, if_pos hb] using ih existing a ha'
      · rcases ih (b.url :: existing) a ha' with h | h
        · rcases List.mem_cons.mp h with h' | h'
          · right
            simp only [mergeNew, if_neg hb]
            simp [h']
          · exact Or.inl h'
        · right
          simp only [mergeNew, if_neg hb]
          exact List.mem_cons_of_mem _ h

theorem mergeNew_links_spec (existing : List (List Char))
    (batch : List Article) (hb : ∀ a ∈ batch, pyStrip a.url = a.url) :
    ((mergeNew existing batch).1.map FeedItem.link).Nodup ∧
    (∀ l ∈ (mergeNew existing batch).1.map FeedItem.link,
      l ∉ existing ∧ pyStrip l = l) := by
  induction batch generalizing existing with
  | nil => simp [mergeNew]
  | cons a rest ih =>
    by_cases ha : a.url ∈ existing
    · simp only [mergeNew, if_pos ha]
      exact ih existing (fun b hbm => hb b (List.mem_cons_of_mem a hbm))
    · have ih' := ih (a.url :: existing)
        (fun b hbm => hb b (List.mem_cons_of_mem a hbm))
      simp only [mergeNew, if_neg ha, List.map_cons, List.nodup_cons,
        List.mem_cons]
      refine ⟨⟨?_, ih'.1⟩, ?_⟩
      · intro hmem
        exact ((ih'.2 a.url hmem).1) (List.mem_cons_self _ _)
      · intro l hl
        rcases hl with rfl | hl
        · exact ⟨ha, hb a (List.mem_cons_self a rest)⟩
        · have h2 := ih'.2 l hl
          exact ⟨fun hc => h2.1 (List.mem_cons_of_mem _ hc), h2.2⟩

/-! ### Claim C5 — idempotence of merge-insert -/

/-- Claim C5, counterexample: merging the identical one-article batch a
second time inserts the article again, because the dedup set holds the
stripped link text `"a"` while the batch URL is `" a"`.  The second run
inserts one record (not zero) and the feed grows. -/
theorem c5_merge_not_idempotent :
    (update_main_merge (update_main_merge [] [untrimmedArticle]).1
        [untrimmedArticle]).1 ≠
      (update_main_merge [] [untrimmedArticle]).1 ∧
    (update_main_merge (update_main_merge [] [untrimmedArticle]).1
        [untrimmedArticle]).2 ≠ 0 := by
  decide

/-- Claim C5, amended: for batches all of whose URLs are already
whitespace-trimmed, merge-insert is idempotent — the second run with the
identical batch inserts zero records and returns the same feed. -/
theorem c5_merge_idempotent_of_trimmed (feed : List FeedItem)
    (batch : List Article) (hb : ∀ a ∈ batch, pyStrip a.url = a.url) :
    update_main_merge (update_main_merge feed batch).1 batch =
      ((update_main_merge feed batch).1, 0) := by
  have hall : ∀ a ∈ batch,
      a.url ∈ strippedLinks (update_main_merge feed batch).1 := by
    intro a ha
    have hcov := mergeNew_url_covered (strippedLinks feed) batch a ha
    have hsa : pyStrip a.url = a.url := hb a ha
    rcases hcov with h | h
    · rcases List.mem_map.mp h with ⟨it, hit, heq⟩
      apply List.mem_map.mpr
      exact ⟨it, by
        simp only [update_main_merge, List.mem_append]
        exact Or.inr hit, heq⟩
    · rcases List.mem_map.mp h with ⟨it, hit, heq⟩
      apply List.mem_map.mpr
      refine ⟨it, ?_, ?_⟩
      · simp only [update_main_merge, List.mem_append]
        exact Or.inl hit
      · rw [← heq] at hsa ⊢
        exact hsa
  have hz := mergeNew_skips_of_mem
    (strippedLinks (update_main_merge feed batch).1) batch hall
  simp only [update_main_merge] at hz ⊢
  rw [hz]
  rfl

/-- Claim C5 witness. -/
theorem c5_merge_idempotent_of_trimmed_witness :
    update_main_merge (update_main_merge [] [⟨['a'], ['T'], [], 0, []⟩]).1
        [⟨['a'], ['T'], [], 0, []⟩] =
      ((update_main_merge [] [⟨['a'], ['T'], [], 0, []⟩]).1, 0) :=
  c5_merge_idempotent_of_trimmed [] [⟨['a'], ['T'], [], 0, []⟩]
    (by decide)

/-! ### Claim C6 — URL uniqueness invariant -/

/-- Claim C6, counterexample: a feed produced by two merges of the same
batch (whose URL has leading whitespace) carries two items with the
identical URL `" a"`, so URL uniqueness fails for the unrestricted
claim. -/
theorem c6_uniqueness_fails :
    ¬ ((update_main_merge (update_main_merge [] [untrimmedArticle]).1
        [untrimmedArticle]).1.map FeedItem.link).Nodup := by
  decide

theorem producedFeed_invariant {feed : List FeedItem}
    (h : ProducedFeed feed) :
    (feed.map FeedItem.link).Nodup ∧
    (∀ l ∈ feed.map FeedItem.link, pyStrip l = l) := by
  induction h with
  | empty => simp
  | merge feed batch _ hb ih =>
    have hm := mergeNew_links_spec (strippedLinks feed) batch hb
    constructor
    · simp only [update_main_merge, List.map_append]
      apply List.Nodup.append hm.1 ih.1
      intro l hl1 hl2
      have hns := (hm.2 l hl1).1
      have hstrip : pyStrip l = l := ih.2 l hl2
      apply hns
      apply List.mem_map.mpr
      rcases List.mem_map.mp hl2 with ⟨it, hit, heq⟩
      exact ⟨it, hit, by rw [heq, hstrip]⟩
    · intro l hl
      simp only [update_main_merge, List.map_append, List.mem_append] at hl
      rcases hl with hl | hl
      · exact (hm.2 l hl).2
      · exact ih.2 l hl
  | trim feed _ ih =>
    unfold trimFeed
    by_cases hlen : feed.length > MAX_ITEMS
    · rw [if_pos hlen]
      constructor
      · rw [List.map_take]
        exact ih.1.sublist (List.take_sublist _ _)
      · intro l hl
        rw [List.map_take] at hl
        exact ih.2 l ((List.take_sublist _ _).subset hl)
    · rw [if_neg hlen]; exact ih

/-- Claim C6, amended: for every feed produced by the system's operations
starting from the empty feed, with merge batches whose URLs are
whitespace-trimmed, no two items share a URL. -/
theorem c6_uniqueness_of_produced {feed : List FeedItem}
    (h : ProducedFeed feed) : (feed.map FeedItem.link).Nodup :=
  (producedFeed_invariant h).1

/-- Claim C6 witness. -/
theorem c6_uniqueness_of_produced_witness :
    ((update_main_merge [] [⟨['a'], ['T'], [], 0, []⟩]).1.map
      FeedItem.link).Nodup :=
  c6_uniqueness_of_produced
    (ProducedFeed.merge [] [⟨['a'], ['T'], [], 0, []⟩]
      ProducedFeed.empty (by decide))

/-! ### Lemmas about the delta builder -/

theorem selectGo_eq_dedup_filter (cutoff : Int) (l : List FeedItem) :
    ∀ seen, selectGo cutoff l seen =
      dedupFirstByLink seen (l.filter (fun i => cutoff < i.pubDate)) := by
  induction l with
  | nil => intro seen; rfl
  | cons i rest ih =>
    intro seen
    by_cases hseen : i.link ∈ seen <;> by_cases hpub : cutoff < i.pubDate <;>
      simp [selectGo, dedupFirstByLink, List.filter_cons, hseen, hpub, ih]

theorem selectGo_nil_of_le (cutoff : Int) (l : List FeedItem)
    (h : ∀ i ∈ l, i.pubDate ≤ cutoff) : ∀ seen, selectGo cutoff l seen = [] := by
  induction l with
  | nil => intro _; rfl
  | cons i rest ih =>
    intro seen
    have hi : ¬ cutoff < i.pubDate := not_lt.mpr (h i (List.mem_cons_self _ _))
    have ih' := ih (fun j hj => h j (List.mem_cons_of_mem _ hj))
    by_cases hseen : i.link ∈ seen
    · simp only [selectGo, if_pos hseen]; exact ih' seen
    · simp only [selectGo, if_neg hseen, if_neg hi]; exact ih' seen

theorem insertByPubDesc_perm (x : FeedItem) (l : List FeedItem) :
    List.Perm (insertByPubDesc x l) (x :: l) := by
  induction l with
  | nil => rfl
  | cons y ys ih =>
    simp only [insertByPubDesc]
    by_cases h : y.pubDate ≤ x.pubDate
    · rw [if_pos h]
    · rw [if_neg h]
      exact (ih.cons y).trans (List.Perm.swap x y ys)

theorem sortByPubDesc_perm (l : List FeedItem) :
    List.Perm (sortByPubDesc l) l := by
  induction l with
  | nil => rfl
  | cons x xs ih =>
    exact (insertByPubDesc_perm x (sortByPubDesc xs)).trans (ih.cons x)

theorem insertByPubDesc_pairwise (x : FeedItem) (l : List FeedItem)
    (h : l.Pairwise (fun a b => b.pubDate ≤ a.pubDate)) :
    (insertByPubDesc x l).Pairwise (fun a b => b.pubDate ≤ a.pubDate) := by
  induction l with
  | nil => simp [insertByPubDesc]
  | cons y ys ih =>
    simp only [insertByPubDesc]
    rcases List.pairwise_cons.mp h with ⟨hy, hys⟩
    by_cases hc : y.pubDate ≤ x.pubDate
    · rw [if_pos hc]
      apply List.pairwise_cons.mpr
      refine ⟨?_, h⟩
      intro b hb
      rcases List.mem_cons.mp hb with rfl | hb'
      · exact hc
      · exact le_trans (hy b hb') hc
    · rw [if_neg hc]
      apply List.pairwise_cons.mpr
      refine ⟨?_, ih hys⟩
      intro b hb
      have hmem := (insertByPubDesc_perm x ys).mem_iff.mp hb
      rcases List.mem_cons.mp hmem with rfl | hb'
      · exact le_of_not_le hc
      · exact hy b hb'

theorem sortByPubDesc_pairwise (l : List FeedItem) :
    (sortByPubDesc l).Pairwise (fun a b => b.pubDate ≤ a.pubDate) := by
  induction l with
  | nil => simp [sortByPubDesc]
  | cons x xs ih => exact insertByPubDesc_pairwise x (sortByPubDesc xs) ih

theorem foldl_max_spec (xs : List Int) :
    ∀ acc : Int, (xs.foldl max acc = acc ∨ xs.foldl max acc ∈ xs) ∧
      acc ≤ xs.foldl max acc ∧ ∀ y ∈ xs, y ≤ xs.foldl max acc := by
  induction xs with
  | nil => intro acc; simp
  | cons x rest ih =>
    intro acc
    obtain ⟨hmem, hacc, hall⟩ := ih (max acc x)
    refine ⟨?_, ?_, ?_⟩
    · simp only [List.foldl_cons]
      rcases hmem with h | h
      · rcases max_choice acc x with hc | hc
        · left; rw [h, hc]
        · right; rw [h, hc]; exact List.mem_cons_self _ _
      · right; exact List.mem_cons_of_mem _ h
    · simp only [List.foldl_cons]
      exact le_trans (le_max_left acc x) hacc
    · intro y hy
      simp only [List.foldl_cons]
      rcases List.mem_cons.mp hy with rfl | hy'
      · exact le_trans (le_max_right acc y) hacc
      · exact hall y hy'

theorem listMax1_spec (xs : List Int) (h : xs ≠ []) :
    listMax1 xs ∈ xs ∧ ∀ y ∈ xs, y ≤ listMax1 xs := by
  cases xs with
  | nil => exact absurd rfl h
  | cons x rest =>
    obtain ⟨hmem, hacc, hall⟩ := foldl_max_spec rest x
    refine ⟨?_, ?_⟩
    · simp only [listMax1]
      rcases hmem with h' | h'
      · rw [h']; exact List.mem_cons_self _ _
      · exact List.mem_cons_of_mem _ h'
    · intro y hy
      simp only [listMax1]
      rcases List.mem_cons.mp hy with rfl | hy'
      · exact hacc
      · exact hall y hy'

theorem chunksOf_cons (n : Nat) (l : List FeedItem) (hn : n ≠ 0)
    (hl : l ≠ []) : chunksOf n l = l.take n :: chunksOf n (l.drop n) := by
  rw [chunksOf]
  rw [dif_neg (by push_neg; exact ⟨hn, hl⟩)]

theorem chunksOf_nil (n : Nat) : chunksOf n [] = [] := by
  rw [chunksOf]
  rw [dif_pos (Or.inr rfl)]

/-! ### Claim C1 — delta selection, ordering, watermark -/

/-- Claim C1: (1) the delta selection keeps exactly the items with
`pubDate > cutoff`, first occurrence per link; (2) the emitted order is
descending by `pubDate`; (3) the saved watermark is the maximum
`pubDate` over the full selection (it belongs to the selection's
instants and dominates them all); (4) on the example feed with cutoff
`t` it selects exactly the `t+2h` and `t+5h` items, descending, in one
batch, and advances the watermark to `t+5h`. -/
theorem c1_delta_correctness :
    (∀ cutoff : Int, ∀ master : List FeedItem,
      selectAfter cutoff master =
        dedupFirstByLink [] (master.filter (fun i => cutoff < i.pubDate))) ∧
    (∀ cutoff : Int, ∀ master : List FeedItem,
      (sortByPubDesc (selectAfter cutoff master)).Pairwise
        (fun a b => b.pubDate ≤ a.pubDate)) ∧
    (∀ master lastSeen now,
      selectAfter (cutoffOf lastSeen now) master ≠ [] →
      (update_daily master lastSeen now).lastSeenSaved ∈
          (selectAfter (cutoffOf lastSeen now) master).map FeedItem.pubDate ∧
        ∀ p ∈ (selectAfter (cutoffOf lastSeen now) master).map FeedItem.pubDate,
          p ≤ (update_daily master lastSeen now).lastSeenSaved) ∧
    (∀ t now : Int, update_daily (c1Feed t) (some t) now =
      { files := [("daily_feed.xml", "Daily Feed - The Business Standard",
          [c1Item 4 (t + 5 * 3600), c1Item 3 (t + 2 * 3600)])],
        lastSeenSaved := t + 5 * 3600 }) := by
  refine ⟨?_, ?_, ?_, ?_⟩
  · intro cutoff master
    exact selectGo_eq_dedup_filter cutoff master []
  · intro cutoff master
    exact sortByPubDesc_pairwise _
  · intro master lastSeen now hne
    have hsorted_ne : sortByPubDesc (selectAfter (cutoffOf lastSeen now) master) ≠ [] := by
      intro hc
      have hp := sortByPubDesc_perm (selectAfter (cutoffOf lastSeen now) master)
      rw [hc] at hp
      exact hne (hp.symm.eq_nil)
    have hmap_ne : (sortByPubDesc (selectAfter (cutoffOf lastSeen now) master)).map
        FeedItem.pubDate ≠ [] := by
      simpa using hsorted_ne
    obtain ⟨hmem, hall⟩ := listMax1_spec _ hmap_ne
    have hperm : List.Perm
        ((sortByPubDesc (selectAfter (cutoffOf lastSeen now) master)).map
          FeedItem.pubDate)
        ((selectAfter (cutoffOf lastSeen now) master).map FeedItem.pubDate) :=
      (sortByPubDesc_perm _).map _
    have hval : (update_daily master lastSeen now).lastSeenSaved =
        listMax1 ((sortByPubDesc (selectAfter (cutoffOf lastSeen now) master)).map
          FeedItem.pubDate) := by
      simp only [update_daily]
      rw [if_neg hne]
    rw [hval]
    exact ⟨hperm.mem_iff.mp hmem, fun p hp => hall p (hperm.mem_iff.mpr hp)⟩
  · intro t now
    have h1 : ¬ (t < t - 3 * 3600) := by omega
    have h2 : ¬ (t < t - 3600) := by omega
    have h3 : ¬ (t < t) := by omega
    have h4 : t < t + 2 * 3600 := by omega
    have h5 : t < t + 5 * 3600 := by omega
    have h6 : t + 2 * 3600 ≤ t + 5 * 3600 := by omega
    have h7 : ¬ (t + 5 * 3600 ≤ t + 2 * 3600) := by omega
    have hsel : selectAfter t (c1Feed t) =
        [c1Item 3 (t + 2 * 3600), c1Item 4 (t + 5 * 3600)] := by
      simp only [selectAfter, c1Feed, selectGo, c1Item]
      rw [if_neg (by decide), if_neg h1, if_neg (by decide), if_neg h2,
        if_neg (by decide), if_neg h3, if_neg (by decide), if_pos h4]
      rw [if_neg (by decide), if_pos h5]
    have hne : selectAfter t (c1Feed t) ≠ [] := by rw [hsel]; simp
    have hsort : sortByPubDesc [c1Item 3 (t + 2 * 3600), c1Item 4 (t + 5 * 3600)] =
        [c1Item 4 (t + 5 * 3600), c1Item 3 (t + 2 * 3600)] := by
      simp only [sortByPubDesc, insertByPubDesc, c1Item]
      rw [if_neg h7]
    have hchunks : chunksOf MAX_ITEMS_PER_DAILY
        [c1Item 4 (t + 5 * 3600), c1Item 3 (t + 2 * 3600)] =
        [[c1Item 4 (t + 5 * 3600), c1Item 3 (t + 2 * 3600)]] := by
      rw [chunksOf_cons _ _ (by decide) (by simp)]
      simp [MAX_ITEMS_PER_DAILY, chunksOf_nil]
    simp only [update_daily, cutoffOf]
    rw [if_neg hne, hsel, hsort, hchunks]
    simp only [filesOfBatches, dailyFileName, dailyTitle, listMax1,
      List.map_cons, List.map_nil, List.foldl_cons, List.foldl_nil, c1Item]
    rw [max_eq_left h6]
    rfl

/-- Claim C1 witness. -/
theorem c1_delta_correctness_witness :
    selectAfter (cutoffOf (some 0) 7) [⟨[], ['x'], [], 1, []⟩] ≠ [] ∧
    ((update_daily [⟨[], ['x'], [], 1, []⟩] (some 0) 7).lastSeenSaved ∈
        (selectAfter (cutoffOf (some 0) 7)
          [⟨[], ['x'], [], 1, []⟩]).map FeedItem.pubDate ∧
      ∀ p ∈ (selectAfter (cutoffOf (some 0) 7)
          [⟨[], ['x'], [], 1, []⟩]).map FeedItem.pubDate,
        p ≤ (update_daily [⟨[], ['x'], [], 1, []⟩] (some 0) 7).lastSeenSaved) :=
  ⟨by decide, c1_delta_correctness.2.2.1 [⟨[], ['x'], [], 1, []⟩] (some 0) 7
    (by decide)⟩

/-! ### Claim C8 — placeholder fallback -/

/-- Claim C8: when no item's `pubDate` strictly exceeds the cutoff,
`update_daily` emits exactly one batch holding exactly the synthetic
placeholder record (fixed title, site-root link, `pubDate = now`) and
saves `now` as the watermark. -/
theorem c8_placeholder (master : List FeedItem) (lastSeen : Option Int)
    (now : Int) (h : ∀ i ∈ master, i.pubDate ≤ cutoffOf lastSeen now) :
    update_daily master lastSeen now =
      { files := [("daily_feed.xml", "Daily Feed - The Business Standard",
          [placeholderItem now])],
        lastSeenSaved := now } := by
  have hsel : selectAfter (cutoffOf lastSeen now) master = [] :=
    selectGo_nil_of_le _ master h []
  simp only [update_daily]
  rw [if_pos hsel]
  rfl

/-- Claim C8 witness. -/
theorem c8_placeholder_witness :
    update_daily [⟨[], ['x'], [], 3, []⟩] (some 5) 9 =
      { files := [("daily_feed.xml", "Daily Feed - The Business Standard",
          [placeholderItem 9])],
        lastSeenSaved := 9 } :=
  c8_placeholder [⟨[], ['x'], [], 3, []⟩] (some 5) 9 (by decide)

/-! ### Claim C9 — batching 250 into 100/100/50 -/

theorem sortByPubDesc_length (l : List FeedItem) :
    (sortByPubDesc l).length = l.length :=
  (sortByPubDesc_perm l).length_eq

/-- Claim C9: a selection of 250 qualifying items is emitted as exactly
three batches of sizes 100, 100, 50, in that order, named
`daily_feed.xml`, `daily_feed_2.xml`, `daily_feed_3.xml`. -/
theorem c9_batching (master : List FeedItem) (lastSeen : Option Int)
    (now : Int)
    (h : (selectAfter (cutoffOf lastSeen now) master).length = 250) :
    (update_daily master lastSeen now).files.map
        (fun f => (f.1, f.2.1, f.2.2.length)) =
      [("daily_feed.xml", "Daily Feed - The Business Standard", 100),
       ("daily_feed_2.xml", "Daily Feed 2 - The Business Standard", 100),
       ("daily_feed_3.xml", "Daily Feed 3 - The Business Standard", 50)] := by
  have hne : selectAfter (cutoffOf lastSeen now) master ≠ [] := by
    intro hc; rw [hc] at h; simp at h
  have hlen : (sortByPubDesc (selectAfter (cutoffOf lastSeen now) master)).length
      = 250 := by rw [sortByPubDesc_length, h]
  set l := sortByPubDesc (selectAfter (cutoffOf lastSeen now) master) with hldef
  have h1 : chunksOf MAX_ITEMS_PER_DAILY l =
      l.take 100 :: chunksOf 100 (l.drop 100) := by
    apply chunksOf_cons
    · decide
    · intro hc; rw [hc] at hlen; simp at hlen
  have h2 : chunksOf 100 (l.drop 100) =
      (l.drop 100).take 100 :: chunksOf 100 ((l.drop 100).drop 100) := by
    apply chunksOf_cons
    · decide
    · intro hc
      have := congrArg List.length hc
      simp only [List.length_drop, List.length_nil, hlen] at this
      omega
  have h3 : chunksOf 100 ((l.drop 100).drop 100) =
      ((l.drop 100).drop 100).take 100 ::
        chunksOf 100 (((l.drop 100).drop 100).drop 100) := by
    apply chunksOf_cons
    · decide
    · intro hc
      have := congrArg List.length hc
      simp only [List.length_drop, List.length_nil, hlen] at this
      omega
  have h4 : ((l.drop 100).drop 100).drop 100 = [] := by
    apply List.eq_nil_of_length_eq_zero
    simp only [List.length_drop, hlen]
  simp only [update_daily]
  rw [if_neg hne, ← hldef, h1, h2, h3, h4, chunksOf_nil]
  simp only [filesOfBatches, List.map_cons, List.map_nil,
    List.length_take, List.length_drop, hlen]
  decide

set_option maxRecDepth 40000 in
/-- Claim C9 witness: a feed of 250 items with pairwise distinct links,
all published after the watermark. -/
theorem c9_batching_witness :
    (selectAfter (cutoffOf (some 0) 0)
        ((List.range 250).map (fun k => ⟨[], [Char.ofNat (65 + k)], [], 1, []⟩))).length
      = 250 ∧
    (update_daily
        ((List.range 250).map (fun k => ⟨[], [Char.ofNat (65 + k)], [], 1, []⟩))
        (some 0) 0).files.map (fun f => (f.1, f.2.1, f.2.2.length)) =
      [("daily_feed.xml", "Daily Feed - The Business Standard", 100),
       ("daily_feed_2.xml", "Daily Feed 2 - The Business Standard", 100),
       ("daily_feed_3.xml", "Daily Feed 3 - The Business Standard", 50)] :=
  ⟨by decide, c9_batching _ (some 0) 0 (by decide)⟩

theorem yoeOfDoe_bounds (a : Int) (h0 : 0 ≤ a) (h1 : a ≤ 146096) :
    0 ≤ yoeOfDoe a ∧ yoeOfDoe a ≤ 399 := by
  unfold yoeOfDoe
  omega

set_option maxHeartbeats 16000000 in
theorem doyOfDoe_bounds (a : Int) (h0 : 0 ≤ a) (h1 : a ≤ 146096) :
    0 ≤ doyOfDoe a ∧ doyOfDoe a ≤ 365 := by
  obtain ⟨hy0, hy1⟩ := yoeOfDoe_bounds a h0 h1
  simp only [doyOfDoe, yoeOfDoe] at hy0 hy1 ⊢
  generalize hc : (a - a / 1460 + a / 36524 - a / 146096) / 365 = c at hy0 hy1 ⊢
  interval_cases c <;> omega

set_option maxHeartbeats 4000000 in
theorem daysFromCivil_reconstruct (era yoe doy mp y m d : Int)
    (hyoe0 : 0 ≤ yoe) (hyoe1 : yoe ≤ 399)
    (hdoy0 : 0 ≤ doy) (hdoy1 : doy ≤ 365)
    (hmp : mp = (5 * doy + 2) / 153)
    (hm : m = if mp < 10 then mp + 3 else mp - 9)
    (hy : y = if m ≤ 2 then yoe + era * 400 + 1 else yoe + era * 400)
    (hd : d = doy - (153 * mp + 2) / 5 + 1) :
    daysFromCivil y m d =
      era * 146097 + (yoe * 365 + yoe / 4 - yoe / 100 + doy) - 719468 := by
  simp only [daysFromCivil]
  split_ifs at hm hy ⊢ <;> omega

set_option maxHeartbeats 4000000 in
theorem daysFromCivil_ofDays (z : Int) :
    daysFromCivil (civilYearOfDays z) (civilMonthOfDays z) (civilDayOfDays z)
      = z := by
  have hdoe0 : 0 ≤ (z + 719468) % 146097 := by omega
  have hdoe1 : (z + 719468) % 146097 ≤ 146096 := by omega
  obtain ⟨hy0, hy1⟩ := yoeOfDoe_bounds ((z + 719468) % 146097) hdoe0 hdoe1
  obtain ⟨hd0, hd1⟩ := doyOfDoe_bounds ((z + 719468) % 146097) hdoe0 hdoe1
  have key := daysFromCivil_reconstruct ((z + 719468) / 146097)
      (yoeOfDoe ((z + 719468) % 146097)) (doyOfDoe ((z + 719468) % 146097))
      (mpOfDoy (doyOfDoe ((z + 719468) % 146097)))
      (civilYearOfDays z) (civilMonthOfDays z) (civilDayOfDays z)
      hy0 hy1 hd0 hd1 rfl rfl rfl rfl
  rw [key]
  simp only [doyOfDoe, yoeOfDoe]
  omega

set_option maxHeartbeats 4000000 in
theorem civilMonthOfDays_range (z : Int) :
    1 ≤ civilMonthOfDays z ∧ civilMonthOfDays z ≤ 12 := by
  have hdoe0 : 0 ≤ (z + 719468) % 146097 := by omega
  have hdoe1 : (z + 719468) % 146097 ≤ 146096 := by omega
  obtain ⟨hd0, hd1⟩ := doyOfDoe_bounds ((z + 719468) % 146097) hdoe0 hdoe1
  simp only [civilMonthOfDays]
  simp only [mpOfDoy, doyOfDoe, yoeOfDoe] at hd0 hd1 ⊢
  split_ifs <;> omega

set_option maxHeartbeats 4000000 in
theorem civilDayOfDays_range (z : Int) :
    1 ≤ civilDayOfDays z ∧ civilDayOfDays z ≤ 31 := by
  have hdoe0 : 0 ≤ (z + 719468) % 146097 := by omega
  have hdoe1 : (z + 719468) % 146097 ≤ 146096 := by omega
  obtain ⟨hd0, hd1⟩ := doyOfDoe_bounds ((z + 719468) % 146097) hdoe0 hdoe1
  simp only [civilDayOfDays]
  simp only [mpOfDoy, doyOfDoe, yoeOfDoe] at hd0 hd1 ⊢
  omega

theorem secsFromCivil_ofSecs (e : Int) :
    secsFromCivil (civilYearOfSecs e) (civilMonthOfSecs e) (civilDayOfSecs e)
      (hourOfSecs e) (minuteOfSecs e) (secondOfSecs e) = e := by
  unfold secsFromCivil civilYearOfSecs civilMonthOfSecs civilDayOfSecs
    hourOfSecs minuteOfSecs secondOfSecs
  rw [daysFromCivil_ofDays (e / 86400)]
  omega

theorem hmsOfSecs_range (e : Int) :
    0 ≤ hourOfSecs e ∧ hourOfSecs e ≤ 23 ∧
    0 ≤ minuteOfSecs e ∧ minuteOfSecs e ≤ 59 ∧
    0 ≤ secondOfSecs e ∧ secondOfSecs e ≤ 59 := by
  unfold hourOfSecs minuteOfSecs secondOfSecs
  omega

theorem weekdayOfDays_range (z : Int) :
    0 ≤ weekdayOfDays z ∧ weekdayOfDays z ≤ 6 := by
  unfold weekdayOfDays
  omega

/-! ### Claim C3 — the relative-shorthand guard swallows explicit dates

The code's own comment (line 66) names `12 Dec 2025 01:27:00` as the
example of the `"%d %b %Y %H:%M:%S"` format, but `re.match` is a prefix
match: on the lowered text `12 dec …` the pattern `\d+\s*[mhd]` matches
`12 d`, so the input is routed to `parse_relative_time` and becomes
`now - 12 days`, never reaching the format list. -/

/-- Claim C3, code bug: `parse_date_from_text` sends the explicit-format
input `"12 Dec 2025 01:27:00"` down the relative branch, returning
`now - 12 days`; the `"%d %b %Y %H:%M:%S"` parser it never reaches would
have produced the absolute UTC instant 2025-12-12 01:27:00. -/
theorem c3_explicit_format_hits_relative_branch (now : Int) :
    parse_date_from_text now ("12 Dec 2025 01:27:00".toList) =
      now - 86400 * 12 ∧
    strptime_dBY_HMS ("12 Dec 2025 01:27:00".toList) =
      some (secsFromCivil 2025 12 12 1 27 0) := by
  constructor
  · rfl
  · rfl

theorem update_daily_files_ne_nil (m : List FeedItem) (ls : Option Int)
    (now : Int) : (update_daily m ls now).files ≠ [] := by
  simp only [update_daily]
  by_cases hsel : selectAfter (cutoffOf ls now) m = []
  · rw [if_pos hsel]; simp
  · rw [if_neg hsel]
    have hsort_ne : sortByPubDesc (selectAfter (cutoffOf ls now) m) ≠ [] := by
      intro hc
      have hp := sortByPubDesc_perm (selectAfter (cutoffOf ls now) m)
      rw [hc] at hp
      exact hsel (hp.symm.eq_nil)
    rw [chunksOf_cons MAX_ITEMS_PER_DAILY _ (by decide) hsort_ne]
    simp [filesOfBatches]

/-! ### Claim C2 — behaviour when the source HTML is absent -/

/-- Claim C2, counterexample: with `news.html` absent, the default run
leaves the main feed alone but still rewrites the daily feed file(s) and
the watermark — here the watermark moves from 0 to `now = 100` and a
placeholder daily file is written, so "all persisted state unchanged" is
false. -/
theorem c2_run_mutates_state :
    (run_default ⟨none, [], [], some 0⟩ 100).lastSeen ≠
      (⟨none, [], [], some 0⟩ : SysState).lastSeen ∧
    (run_default ⟨none, [], [], some 0⟩ 100).dailyFiles ≠
      (⟨none, [], [], some 0⟩ : SysState).dailyFiles := by
  decide

/-- Claim C2, amended: when the source HTML document is absent the main
feed file is left unchanged, but the default run still executes the
daily update against it — it writes at least one daily delta file and
overwrites the watermark file. -/
theorem c2_absent_html_keeps_main_but_writes_daily (s : SysState)
    (now : Int) (h : s.htmlCards = none) :
    (run_default s now).mainFeed = s.mainFeed ∧
    (run_default s now).dailyFiles =
      (update_daily s.mainFeed s.lastSeen now).files ∧
    (run_default s now).lastSeen =
      some (update_daily s.mainFeed s.lastSeen now).lastSeenSaved ∧
    (run_default s now).dailyFiles ≠ [] := by
  have hmain : update_main_run s = s := by
    unfold update_main_run scrape_articles
    rw [h]
    rfl
  unfold run_default
  rw [hmain]
  unfold update_daily_run
  refine ⟨rfl, rfl, rfl, ?_⟩
  exact update_daily_files_ne_nil s.mainFeed s.lastSeen now

/-- Claim C2 witness. -/
theorem c2_absent_html_keeps_main_but_writes_daily_witness :
    (run_default ⟨none, [], [], none⟩ 0).mainFeed =
      (⟨none, [], [], none⟩ : SysState).mainFeed ∧
    (run_default ⟨none, [], [], none⟩ 0).dailyFiles =
      (update_daily (⟨none, [], [], none⟩ : SysState).mainFeed
        (⟨none, [], [], none⟩ : SysState).lastSeen 0).files ∧
    (run_default ⟨none, [], [], none⟩ 0).lastSeen =
      some (update_daily (⟨none, [], [], none⟩ : SysState).mainFeed
        (⟨none, [], [], none⟩ : SysState).lastSeen 0).lastSeenSaved ∧
    (run_default ⟨none, [], [], none⟩ 0).dailyFiles ≠ [] :=
  c2_absent_html_keeps_main_but_writes_daily ⟨none, [], [], none⟩ 0 rfl

/-! ### Claim C4 — watermark save is not crash-safe -/

/-- Claim C4, counterexample: interrupting `save_last_seen` after the
truncating open (executing only the first of its two operations) leaves
the watermark file empty — the previously committed content `"PREV"` is
destroyed, so the save is not atomic and not equivalent to
write-to-temp-then-rename. -/
theorem c4_save_not_crash_safe :
    (applyFsOps ((save_last_seen_ops 5 7).take 1) c4PrevFs) LAST_SEEN_FILE ≠
      some ("PREV".toList) := by
  decide

/-- Claim C4, amended: `save_last_seen` overwrites `last_seen.json` in
place — a truncating open followed by the write, with no rename step —
so an interruption between the two leaves an empty file rather than the
previous watermark; the completed sequence leaves the serialized
`last_seen`/`last_run` body. -/
theorem c4_save_overwrites_in_place (lastDt now : Int)
    (fs : String → Option (List Char)) :
    (applyFsOps ((save_last_seen_ops lastDt now).take 1) fs) LAST_SEEN_FILE =
      some [] ∧
    (applyFsOps (save_last_seen_ops lastDt now) fs) LAST_SEEN_FILE =
      some (lastSeenJson lastDt now) ∧
    (∀ op ∈ save_last_seen_ops lastDt now, ∀ src dst,
      op ≠ FsOp.renameTo src dst) := by
  refine ⟨?_, ?_, ?_⟩
  · simp [save_last_seen_ops, applyFsOps, applyFsOp]
  · simp [save_last_seen_ops, applyFsOps, applyFsOp]
  · intro op hop src dst
    rcases List.mem_cons.mp hop with rfl | hop'
    · simp
    · rcases List.mem_cons.mp hop' with rfl | hop''
      · simp
      · cases hop''

/-! ### Claim C7 — capacity invariant of trim -/

/-- Claim C7: after the trim step the feed holds at most `MAX_ITEMS`
items; the retained items are exactly the first `MAX_ITEMS` ones — the
head of the insertion-ordered sequence, i.e. the most recently inserted
(each merge places its block of new items before all older ones) — and
what is evicted is a suffix cut from the tail. -/
theorem c7_trim_cap (feed : List FeedItem) (batch : List Article) :
    (trimFeed feed).length ≤ MAX_ITEMS ∧
    trimFeed feed = feed.take MAX_ITEMS ∧
    (∃ evicted, feed = trimFeed feed ++ evicted) ∧
    (update_main_merge feed batch).1 =
      (mergeNew (strippedLinks feed) batch).1 ++ feed := by
  constructor
  · unfold trimFeed
    by_cases h : feed.length > MAX_ITEMS
    · rw [if_pos h]; simp
    · rw [if_neg h]; omega
  constructor
  · unfold trimFeed
    by_cases h : feed.length > MAX_ITEMS
    · rw [if_pos h]
    · rw [if_neg h, List.take_of_length_le (by omega)]
  constructor
  · unfold trimFeed
    by_cases h : feed.length > MAX_ITEMS
    · rw [if_pos h]
      exact ⟨feed.drop MAX_ITEMS, (List.take_append_drop _ _).symm⟩
    · rw [if_neg h]
      exact ⟨[], (List.append_nil _).symm⟩
  · rfl

/-! ## Claim C10 — serialization round-trip

Supporting lemmas: digit printing/parsing inverses, Python tokenization
of the generated RFC-822 text, and the reconstruction of the instant by
the `parsedate` model; then the claim itself. -/

/-! ### Digit and tokenization lemmas -/

theorem digitChar_spec (k : Int) (h0 : 0 ≤ k) (h1 : k ≤ 9) :
    isDigitChar (digitChar k) = true ∧ (digitChar k).toNat = 48 + k.toNat ∧
    pySpace (digitChar k) = false ∧ digitChar k ≠ ',' ∧ digitChar k ≠ ':' := by
  interval_cases k <;> decide

theorem parseNatAll_pad2 (n : Int) (h0 : 0 ≤ n) (h1 : n ≤ 99) :
    ∃ k : Nat, parseNatAll (pad2 n) = some k ∧ (k : Int) = n := by
  obtain ⟨hd1, ht1, _, _, _⟩ := digitChar_spec (n / 10) (by omega) (by omega)
  obtain ⟨hd0, ht0, _, _, _⟩ := digitChar_spec (n % 10) (by omega) (by omega)
  refine ⟨natOfDigits (pad2 n), ?_, ?_⟩
  · unfold parseNatAll
    rw [if_pos]
    constructor
    · simp [pad2]
    · simp [pad2, List.all_cons, hd1, hd0]
  · simp only [natOfDigits, pad2, List.foldl_cons, List.foldl_nil, ht1, ht0]
    have e1 : (48 + (n / 10).toNat) - 48 = (n / 10).toNat := by omega
    have e0 : (48 + (n % 10).toNat) - 48 = (n % 10).toNat := by omega
    rw [e1, e0]
    push_cast
    rw [Int.toNat_of_nonneg (by omega), Int.toNat_of_nonneg (by omega)]
    omega

theorem parseNatAll_pad4 (n : Int) (h0 : 0 ≤ n) (h1 : n ≤ 9999) :
    ∃ k : Nat, parseNatAll (pad4 n) = some k ∧ (k : Int) = n := by
  obtain ⟨hd3, ht3, _, _, _⟩ := digitChar_spec (n / 1000) (by omega) (by omega)
  obtain ⟨hd2, ht2, _, _, _⟩ := digitChar_spec (n / 100 % 10) (by omega) (by omega)
  obtain ⟨hd1, ht1, _, _, _⟩ := digitChar_spec (n / 10 % 10) (by omega) (by omega)
  obtain ⟨hd0, ht0, _, _, _⟩ := digitChar_spec (n % 10) (by omega) (by omega)
  refine ⟨natOfDigits (pad4 n), ?_, ?_⟩
  · unfold parseNatAll
    rw [if_pos]
    constructor
    · simp [pad4]
    · simp [pad4, List.all_cons, hd3, hd2, hd1, hd0]
  · simp only [natOfDigits, pad4, List.foldl_cons, List.foldl_nil, ht3, ht2, ht1, ht0]
    have e3 : (48 + (n / 1000).toNat) - 48 = (n / 1000).toNat := by omega
    have e2 : (48 + (n / 100 % 10).toNat) - 48 = (n / 100 % 10).toNat := by omega
    have e1 : (48 + (n / 10 % 10).toNat) - 48 = (n / 10 % 10).toNat := by omega
    have e0 : (48 + (n % 10).toNat) - 48 = (n % 10).toNat := by omega
    rw [e3, e2, e1, e0]
    push_cast
    rw [Int.toNat_of_nonneg (by omega), Int.toNat_of_nonneg (by omega),
      Int.toNat_of_nonneg (by omega), Int.toNat_of_nonneg (by omega)]
    omega

theorem dropWhile_append_last (p : Char → Bool) (xs : List Char) (c : Char)
    (hc : p c = false) :
    List.dropWhile p (xs ++ [c]) = List.dropWhile p xs ++ [c] := by
  induction xs with
  | nil => simp [List.dropWhile, hc]
  | cons a l ih =>
    by_cases ha : p a
    · simp [List.dropWhile_cons, ha, ih]
    · simp [List.dropWhile_cons, ha]

theorem pyStrip_cons_of_not_space (c : Char) (cs : List Char)
    (hc : pySpace c = false) : ∃ u, pyStrip (c :: cs) = c :: u := by
  unfold pyStrip pyLStrip pyRStrip
  rw [List.dropWhile_cons, if_neg (by simp [hc])]
  rw [List.reverse_cons, dropWhile_append_last pySpace cs.reverse c hc]
  exact ⟨(List.dropWhile pySpace cs.reverse).reverse, by simp⟩

theorem splitWsAux_word (t : List Char) (ht : ∀ c ∈ t, pySpace c = false) :
    ∀ s acc, splitWsAux (t ++ s) acc = splitWsAux s (t.reverse ++ acc) := by
  induction t with
  | nil => intro s acc; simp
  | cons c t' ih =>
    intro s acc
    have hc : pySpace c = false := ht c (List.mem_cons_self _ _)
    have ht' : ∀ x ∈ t', pySpace x = false :=
      fun x hx => ht x (List.mem_cons_of_mem _ hx)
    show splitWsAux (c :: (t' ++ s)) acc = splitWsAux s ((c :: t').reverse ++ acc)
    simp only [splitWsAux, hc, Bool.false_eq_true, if_false]
    show splitWsAux (t' ++ s) (c :: acc) = splitWsAux s ((c :: t').reverse ++ acc)
    rw [ih ht' s (c :: acc)]
    simp [List.append_assoc]

theorem splitWs_joinSpace (ts : List (List Char))
    (h : ∀ t ∈ ts, t ≠ [] ∧ ∀ c ∈ t, pySpace c = false) :
    splitWs (joinSpace ts) = ts := by
  induction ts with
  | nil => rfl
  | cons t ts' ih =>
    obtain ⟨htne, htns⟩ := h t (List.mem_cons_self _ _)
    have h' : ∀ u ∈ ts', u ≠ [] ∧ ∀ c ∈ u, pySpace c = false :=
      fun u hu => h u (List.mem_cons_of_mem _ hu)
    cases ts' with
    | nil =>
      show splitWs t = [t]
      unfold splitWs
      conv_lhs => rw [show t = t ++ ([] : List Char) by simp]
      rw [splitWsAux_word t htns]
      show splitWsAux [] (t.reverse ++ []) = [t]
      simp only [splitWsAux]
      rw [if_neg (by simp [htne])]
      simp
    | cons t2 ts'' =>
      show splitWs (t ++ ' ' :: joinSpace (t2 :: ts'')) = t :: t2 :: ts''
      unfold splitWs
      rw [splitWsAux_word t htns]
      show splitWsAux (' ' :: joinSpace (t2 :: ts'')) (t.reverse ++ []) = t :: t2 :: ts''
      simp only [splitWsAux]
      rw [if_pos (by decide)]
      rw [if_neg (by simp [htne])]
      have hs : splitWsAux (joinSpace (t2 :: ts'')) [] = t2 :: ts'' := ih h'
      rw [hs]
      simp

theorem splitChAux_word (sep : Char) (t : List Char)
    (ht : ∀ c ∈ t, c ≠ sep) :
    ∀ s acc, splitChAux sep (t ++ s) acc = splitChAux sep s (t.reverse ++ acc) := by
  induction t with
  | nil => intro s acc; simp
  | cons c t' ih =>
    intro s acc
    have hc : c ≠ sep := ht c (List.mem_cons_self _ _)
    have ht' : ∀ x ∈ t', x ≠ sep := fun x hx => ht x (List.mem_cons_of_mem _ hx)
    show splitChAux sep (c :: (t' ++ s)) acc = splitChAux sep s ((c :: t').reverse ++ acc)
    simp only [splitChAux, hc, if_false]
    show splitChAux sep (t' ++ s) (c :: acc) = splitChAux sep s ((c :: t').reverse ++ acc)
    rw [ih ht' s (c :: acc)]
    simp [List.append_assoc]

theorem splitOnChar_word (sep : Char) (t : List Char) (ht : ∀ c ∈ t, c ≠ sep) :
    splitOnChar sep t = [t] := by
  unfold splitOnChar
  conv_lhs => rw [show t = t ++ ([] : List Char) by simp]
  rw [splitChAux_word sep t ht]
  simp [splitChAux]

theorem splitOnChar_two (sep : Char) (a b c : List Char)
    (hA : ∀ x ∈ a, x ≠ sep) (hB : ∀ x ∈ b, x ≠ sep) (hC : ∀ x ∈ c, x ≠ sep) :
    splitOnChar sep (a ++ (sep :: b) ++ (sep :: c)) = [a, b, c] := by
  unfold splitOnChar
  rw [List.append_assoc, List.cons_append]
  rw [splitChAux_word sep a hA]
  show splitChAux sep (sep :: (b ++ (sep :: c))) (a.reverse ++ []) = [a, b, c]
  simp only [splitChAux, if_true]
  rw [splitChAux_word sep b hB]
  show ((a.reverse ++ []).reverse :: splitChAux sep (sep :: c) (b.reverse ++ [])) = [a, b, c]
  simp only [splitChAux, if_true]
  rw [show splitChAux sep c [] = [c] from splitOnChar_word sep c hC]
  simp

/-! ### Token shapes of the generated text -/

theorem getLast?_append_right (l1 l2 : List Char) (h : l2 ≠ []) :
    (l1 ++ l2).getLast? = l2.getLast? := by
  induction l1 with
  | nil => rfl
  | cons a l1 ih =>
    cases hll : l1 ++ l2 with
    | nil => exact absurd (List.append_eq_nil.mp hll).2 h
    | cons b bs =>
      show (a :: (l1 ++ l2)).getLast? = l2.getLast?
      rw [hll]
      rw [List.getLast?_cons_cons]
      rw [← hll, ih]

theorem monthName_spec (m : Int) (h0 : 1 ≤ m) (h1 : m ≤ 12) :
    monthIndex (pyLower (monthName m)) = some m.toNat ∧
    monthName m ≠ [] ∧ (∀ c ∈ monthName m, pySpace c = false) := by
  interval_cases m <;> exact ⟨by decide, by decide, by decide⟩

theorem dayName_token_spec (w : Int) (h0 : 0 ≤ w) (h1 : w ≤ 6) :
    dayNameOf w ++ [','] ≠ [] ∧
    (∀ c ∈ dayNameOf w ++ [','], pySpace c = false) ∧
    (dayNameOf w ++ [',']).getLast? = some ',' := by
  interval_cases w <;> exact ⟨by decide, by decide, by decide⟩

theorem pad2_token_spec (n : Int) (h0 : 0 ≤ n) (h1 : n ≤ 99) :
    pad2 n ≠ [] ∧ (∀ c ∈ pad2 n, pySpace c = false) ∧
    (∀ c ∈ pad2 n, c ≠ ':') ∧ (pad2 n).getLast? ≠ some ',' := by
  obtain ⟨_, _, hs1, hc1, hcol1⟩ := digitChar_spec (n / 10) (by omega) (by omega)
  obtain ⟨_, _, hs0, hc0, hcol0⟩ := digitChar_spec (n % 10) (by omega) (by omega)
  refine ⟨by simp [pad2], ?_, ?_, ?_⟩
  · intro c hc
    rcases List.mem_cons.mp hc with rfl | hc2
    · exact hs1
    · rcases List.mem_cons.mp hc2 with rfl | hc3
      · exact hs0
      · cases hc3
  · intro c hc
    rcases List.mem_cons.mp hc with rfl | hc2
    · exact hcol1
    · rcases List.mem_cons.mp hc2 with rfl | hc3
      · exact hcol0
      · cases hc3
  · show ([digitChar (n / 10), digitChar (n % 10)]).getLast? ≠ some ','
    simp only [List.getLast?_cons_cons, List.getLast?_singleton]
    intro hcon
    exact hc0 (Option.some.inj hcon)

theorem pad4_token_spec (n : Int) (h0 : 0 ≤ n) (h1 : n ≤ 9999) :
    pad4 n ≠ [] ∧ (∀ c ∈ pad4 n, pySpace c = false) ∧
    (pad4 n).getLast? ≠ some ',' := by
  obtain ⟨_, _, hs3, hc3, _⟩ := digitChar_spec (n / 1000) (by omega) (by omega)
  obtain ⟨_, _, hs2, hc2, _⟩ := digitChar_spec (n / 100 % 10) (by omega) (by omega)
  obtain ⟨_, _, hs1, hc1, _⟩ := digitChar_spec (n / 10 % 10) (by omega) (by omega)
  obtain ⟨_, _, hs0, hc0, _⟩ := digitChar_spec (n % 10) (by omega) (by omega)
  refine ⟨by simp [pad4], ?_, ?_⟩
  · intro c hc
    simp only [pad4, List.mem_cons, List.not_mem_nil, or_false] at hc
    rcases hc with rfl | rfl | rfl | rfl
    · exact hs3
    · exact hs2
    · exact hs1
    · exact hs0
  · show ([digitChar (n / 1000), digitChar (n / 100 % 10),
      digitChar (n / 10 % 10), digitChar (n % 10)]).getLast? ≠ some ','
    simp only [List.getLast?_cons_cons, List.getLast?_singleton]
    intro hcon
    exact hc0 (Option.some.inj hcon)

theorem stripTrailingComma_id (s : List Char) (h : s.getLast? ≠ some ',') :
    stripTrailingComma s = s := by
  unfold stripTrailingComma
  rw [if_neg h]

/-! ### Parsing the generated tokens -/

theorem parseNatAll_pad2_pad2 (x y : Int) (hx0 : 0 ≤ x) (hx1 : x ≤ 99)
    (hy0 : 0 ≤ y) (hy1 : y ≤ 99) :
    ∃ k : Nat, parseNatAll (pad2 x ++ pad2 y) = some k ∧
      (k : Int) = x * 100 + y := by
  obtain ⟨hdA, htA, _, _, _⟩ := digitChar_spec (x / 10) (by omega) (by omega)
  obtain ⟨hdB, htB, _, _, _⟩ := digitChar_spec (x % 10) (by omega) (by omega)
  obtain ⟨hdC, htC, _, _, _⟩ := digitChar_spec (y / 10) (by omega) (by omega)
  obtain ⟨hdD, htD, _, _, _⟩ := digitChar_spec (y % 10) (by omega) (by omega)
  refine ⟨natOfDigits (pad2 x ++ pad2 y), ?_, ?_⟩
  · unfold parseNatAll
    rw [if_pos]
    constructor
    · simp [pad2]
    · simp [pad2, List.all_cons, hdA, hdB, hdC, hdD]
  · show (natOfDigits [digitChar (x / 10), digitChar (x % 10),
      digitChar (y / 10), digitChar (y % 10)] : Int) = x * 100 + y
    simp only [natOfDigits, List.foldl_cons, List.foldl_nil, htA, htB, htC, htD]
    have eA : (48 + (x / 10).toNat) - 48 = (x / 10).toNat := by omega
    have eB : (48 + (x % 10).toNat) - 48 = (x % 10).toNat := by omega
    have eC : (48 + (y / 10).toNat) - 48 = (y / 10).toNat := by omega
    have eD : (48 + (y % 10).toNat) - 48 = (y % 10).toNat := by omega
    rw [eA, eB, eC, eD]
    push_cast
    rw [Int.toNat_of_nonneg (by omega), Int.toNat_of_nonneg (by omega),
      Int.toNat_of_nonneg (by omega), Int.toNat_of_nonneg (by omega)]
    omega

theorem parseTimeTok_pads (hh mi ss : Int) (h0 : 0 ≤ hh) (h1 : hh ≤ 99)
    (h2 : 0 ≤ mi) (h3 : mi ≤ 99) (h4 : 0 ≤ ss) (h5 : ss ≤ 99) :
    ∃ a b c : Nat,
      parseTimeTok (pad2 hh ++ ':' :: pad2 mi ++ ':' :: pad2 ss) =
        some (a, b, c) ∧ (a : Int) = hh ∧ (b : Int) = mi ∧ (c : Int) = ss := by
  obtain ⟨ka, hka, hva⟩ := parseNatAll_pad2 hh h0 h1
  obtain ⟨kb, hkb, hvb⟩ := parseNatAll_pad2 mi h2 h3
  obtain ⟨kc, hkc, hvc⟩ := parseNatAll_pad2 ss h4 h5
  obtain ⟨_, _, hcolA, _⟩ := pad2_token_spec hh h0 h1
  obtain ⟨_, _, hcolB, _⟩ := pad2_token_spec mi h2 h3
  obtain ⟨_, _, hcolC, _⟩ := pad2_token_spec ss h4 h5
  refine ⟨ka, kb, kc, ?_, hva, hvb, hvc⟩
  unfold parseTimeTok
  rw [splitOnChar_two ':' _ _ _ hcolA hcolB hcolC]
  simp only [hka, hkb, hkc]

theorem offsetString_token_spec (o : Int) (h0 : -1439 ≤ o) (h1 : o ≤ 1439) :
    offsetString o ≠ [] ∧ (∀ c ∈ offsetString o, pySpace c = false) := by
  have ha0 : 0 ≤ (if o < 0 then -o else o) := by split <;> omega
  have ha1 : (if o < 0 then -o else o) ≤ 1439 := by split <;> omega
  obtain ⟨_, hsH, _, _⟩ :=
    pad2_token_spec ((if o < 0 then -o else o) / 60) (by omega) (by omega)
  obtain ⟨_, hsM, _, _⟩ :=
    pad2_token_spec ((if o < 0 then -o else o) % 60) (by omega) (by omega)
  constructor
  · simp [offsetString]
  · intro c hc
    simp only [offsetString, List.mem_cons, List.mem_append] at hc
    rcases hc with rfl | hc2 | hc2
    · split <;> decide
    · exact hsH c hc2
    · exact hsM c hc2

theorem tzOffsetOfToken_offsetString (o : Int) (h0 : -1439 ≤ o)
    (h1 : o ≤ 1439) : tzOffsetOfToken (offsetString o) = some (60 * o) := by
  by_cases hz : o = 0
  · subst hz; decide
  by_cases ho : o < 0
  · obtain ⟨k, hk, hv⟩ := parseNatAll_pad2_pad2 ((-o) / 60) ((-o) % 60)
      (by omega) (by omega) (by omega) (by omega)
    have hshape : offsetString o =
        '-' :: (pad2 ((-o) / 60) ++ pad2 ((-o) % 60)) := by
      simp only [offsetString, if_pos ho]
    have hpi : parseIntSigned ('-' :: (pad2 ((-o) / 60) ++ pad2 ((-o) % 60))) =
        some (-(k : Int)) := by
      simp [parseIntSigned, hk]
    rw [hshape]
    simp only [tzOffsetOfToken, hpi]
    rw [if_neg (by simp)]
    split_ifs with hc1 hc2 hc3
    · exact absurd hc1.1 (by omega)
    · exact absurd hc2 (by omega)
    · simp only [Option.some.injEq]
      omega
    · exact absurd (by omega : -(k : Int) < 0) hc3
  · have hop : 0 < o := by omega
    obtain ⟨k, hk, hv⟩ := parseNatAll_pad2_pad2 (o / 60) (o % 60)
      (by omega) (by omega) (by omega) (by omega)
    have hshape : offsetString o =
        '+' :: (pad2 (o / 60) ++ pad2 (o % 60)) := by
      simp only [offsetString, if_neg ho]
    have hpi : parseIntSigned ('+' :: (pad2 (o / 60) ++ pad2 (o % 60))) =
        some ((k : Int)) := by
      simp [parseIntSigned, hk]
    rw [hshape]
    simp only [tzOffsetOfToken, hpi]
    rw [if_neg (by simp)]
    split_ifs with hc1 hc2 hc3
    · exact absurd hc1.1 (by omega)
    · exact absurd hc2 (by omega)
    · exact absurd hc3 (by omega)
    · simp only [Option.some.injEq]
      omega

theorem civilMonthOfSecs_range (e : Int) :
    1 ≤ civilMonthOfSecs e ∧ civilMonthOfSecs e ≤ 12 :=
  civilMonthOfDays_range (e / 86400)

theorem civilDayOfSecs_range (e : Int) :
    1 ≤ civilDayOfSecs e ∧ civilDayOfSecs e ≤ 31 :=
  civilDayOfDays_range (e / 86400)

theorem strftime_split (dt : PyDateTime) (ho0 : -1439 ≤ dt.offMin)
    (ho1 : dt.offMin ≤ 1439)
    (hy0 : 1000 ≤ civilYearOfSecs (dt.sec + dt.offMin * 60))
    (hy1 : civilYearOfSecs (dt.sec + dt.offMin * 60) ≤ 9999) :
    splitWs (strftimeRfc822 dt) =
      [dayNameOf (weekdayOfDays ((dt.sec + dt.offMin * 60) / 86400)) ++ [','],
       pad2 (civilDayOfSecs (dt.sec + dt.offMin * 60)),
       monthName (civilMonthOfSecs (dt.sec + dt.offMin * 60)),
       pad4 (civilYearOfSecs (dt.sec + dt.offMin * 60)),
       pad2 (hourOfSecs (dt.sec + dt.offMin * 60)) ++
         ':' :: pad2 (minuteOfSecs (dt.sec + dt.offMin * 60)) ++
         ':' :: pad2 (secondOfSecs (dt.sec + dt.offMin * 60)),
       offsetString dt.offMin] := by
  obtain ⟨hw0, hw1⟩ := weekdayOfDays_range ((dt.sec + dt.offMin * 60) / 86400)
  obtain ⟨hd1, hd2⟩ := civilDayOfSecs_range (dt.sec + dt.offMin * 60)
  obtain ⟨hm1, hm2⟩ := civilMonthOfSecs_range (dt.sec + dt.offMin * 60)
  obtain ⟨hh0, hh1, hmi0, hmi1, hss0, hss1⟩ :=
    hmsOfSecs_range (dt.sec + dt.offMin * 60)
  obtain ⟨hdn1, hdn2, _⟩ := dayName_token_spec
    (weekdayOfDays ((dt.sec + dt.offMin * 60) / 86400)) hw0 hw1
  obtain ⟨hpd1, hpd2, _, _⟩ := pad2_token_spec
    (civilDayOfSecs (dt.sec + dt.offMin * 60)) (by omega) (by omega)
  obtain ⟨hmn1, hmn2, hmn3⟩ :=
    monthName_spec (civilMonthOfSecs (dt.sec + dt.offMin * 60)) hm1 hm2
  obtain ⟨hpy1, hpy2, _⟩ := pad4_token_spec
    (civilYearOfSecs (dt.sec + dt.offMin * 60)) (by omega) (by omega)
  obtain ⟨hph1, hph2, _, _⟩ := pad2_token_spec
    (hourOfSecs (dt.sec + dt.offMin * 60)) (by omega) (by omega)
  obtain ⟨hpm1, hpm2, _, _⟩ := pad2_token_spec
    (minuteOfSecs (dt.sec + dt.offMin * 60)) (by omega) (by omega)
  obtain ⟨hps1, hps2, _, _⟩ := pad2_token_spec
    (secondOfSecs (dt.sec + dt.offMin * 60)) (by omega) (by omega)
  obtain ⟨hof1, hof2⟩ := offsetString_token_spec dt.offMin ho0 ho1
  apply splitWs_joinSpace
  intro t ht
  simp only [List.mem_cons, List.not_mem_nil, or_false] at ht
  rcases ht with rfl | rfl | rfl | rfl | rfl | rfl
  · exact ⟨hdn1, hdn2⟩
  · exact ⟨hpd1, hpd2⟩
  · exact ⟨hmn2, hmn3⟩
  · exact ⟨hpy1, hpy2⟩
  · refine ⟨by simp [pad2], ?_⟩
    intro c hc
    rcases List.mem_append.mp hc with hc1 | hc1
    · rcases List.mem_append.mp hc1 with hc2 | hc2
      · exact hph2 c hc2
      · rcases List.mem_cons.mp hc2 with rfl | hc3
        · decide
        · exact hpm2 c hc3
    · rcases List.mem_cons.mp hc1 with rfl | hc3
      · decide
      · exact hps2 c hc3
  · exact ⟨hof1, hof2⟩

set_option maxHeartbeats 2000000 in
theorem parsedate_strftime (dt : PyDateTime) (ho0 : -1439 ≤ dt.offMin)
    (ho1 : dt.offMin ≤ 1439)
    (hy0 : 1000 ≤ civilYearOfSecs (dt.sec + dt.offMin * 60))
    (hy1 : civilYearOfSecs (dt.sec + dt.offMin * 60) ≤ 9999) :
    parsedate_to_datetime (strftimeRfc822 dt) = some dt.sec := by
  obtain ⟨hw0, hw1⟩ := weekdayOfDays_range ((dt.sec + dt.offMin * 60) / 86400)
  obtain ⟨hd1, hd2⟩ := civilDayOfSecs_range (dt.sec + dt.offMin * 60)
  obtain ⟨hm1, hm2⟩ := civilMonthOfSecs_range (dt.sec + dt.offMin * 60)
  obtain ⟨hh0, hh1, hmi0, hmi1, hss0, hss1⟩ :=
    hmsOfSecs_range (dt.sec + dt.offMin * 60)
  have hsplit := strftime_split dt ho0 ho1 hy0 hy1
  obtain ⟨_, _, hcomma⟩ := dayName_token_spec
    (weekdayOfDays ((dt.sec + dt.offMin * 60) / 86400)) hw0 hw1
  -- parsed field values
  obtain ⟨kd, hkd, hvd⟩ :=
    parseNatAll_pad2 (civilDayOfSecs (dt.sec + dt.offMin * 60)) (by omega) (by omega)
  obtain ⟨ky, hky, hvy⟩ :=
    parseNatAll_pad4 (civilYearOfSecs (dt.sec + dt.offMin * 60)) (by omega) (by omega)
  obtain ⟨ka, kb, kc, hkt, hva, hvb, hvc⟩ := parseTimeTok_pads
    (hourOfSecs (dt.sec + dt.offMin * 60)) (minuteOfSecs (dt.sec + dt.offMin * 60))
    (secondOfSecs (dt.sec + dt.offMin * 60))
    (by omega) (by omega) (by omega) (by omega) (by omega) (by omega)
  have htz := tzOffsetOfToken_offsetString dt.offMin ho0 ho1
  have hmon := (monthName_spec (civilMonthOfSecs (dt.sec + dt.offMin * 60)) hm1 hm2).1
  obtain ⟨_, _, _, hpdnc⟩ := pad2_token_spec
    (civilDayOfSecs (dt.sec + dt.offMin * 60)) (by omega) (by omega)
  obtain ⟨_, _, hpync⟩ := pad4_token_spec
    (civilYearOfSecs (dt.sec + dt.offMin * 60)) (by omega) (by omega)
  -- the time token does not end in a comma
  have htmnc : (pad2 (hourOfSecs (dt.sec + dt.offMin * 60)) ++
      ':' :: pad2 (minuteOfSecs (dt.sec + dt.offMin * 60)) ++
      ':' :: pad2 (secondOfSecs (dt.sec + dt.offMin * 60))).getLast? ≠ some ',' := by
    rw [getLast?_append_right _ _ (by simp [pad2])]
    rw [show (':' :: pad2 (secondOfSecs (dt.sec + dt.offMin * 60))) =
      [':'] ++ pad2 (secondOfSecs (dt.sec + dt.offMin * 60)) from rfl]
    rw [getLast?_append_right _ _ (by simp [pad2])]
    exact (pad2_token_spec (secondOfSecs (dt.sec + dt.offMin * 60))
      (by omega) (by omega)).2.2.2
  -- step 1: parsedate_tz
  have hptz : parsedate_tz (strftimeRfc822 dt) =
      parsedateFields
        (pad2 (civilDayOfSecs (dt.sec + dt.offMin * 60)))
        (monthName (civilMonthOfSecs (dt.sec + dt.offMin * 60)))
        (pad4 (civilYearOfSecs (dt.sec + dt.offMin * 60)))
        (pad2 (hourOfSecs (dt.sec + dt.offMin * 60)) ++
          ':' :: pad2 (minuteOfSecs (dt.sec + dt.offMin * 60)) ++
          ':' :: pad2 (secondOfSecs (dt.sec + dt.offMin * 60)))
        (offsetString dt.offMin) := by
    simp only [parsedate_tz, hsplit]
    rw [if_pos (Or.inl hcomma)]
  -- step 2: parsedateFields resolves the month
  have hpf : parsedate_tz (strftimeRfc822 dt) =
      parsedateGo
        (pad2 (civilDayOfSecs (dt.sec + dt.offMin * 60)))
        (civilMonthOfSecs (dt.sec + dt.offMin * 60)).toNat
        (pad4 (civilYearOfSecs (dt.sec + dt.offMin * 60)))
        (pad2 (hourOfSecs (dt.sec + dt.offMin * 60)) ++
          ':' :: pad2 (minuteOfSecs (dt.sec + dt.offMin * 60)) ++
          ':' :: pad2 (secondOfSecs (dt.sec + dt.offMin * 60)))
        (offsetString dt.offMin) := by
    rw [hptz]
    simp only [parsedateFields, hmon]
  -- step 3: parsedateGo computes the ParsedTz record
  have hky100 : ¬ (ky < 100) := by omega
  have hgo : parsedate_tz (strftimeRfc822 dt) =
      some ⟨(ky : Int), ((civilMonthOfSecs (dt.sec + dt.offMin * 60)).toNat : Int),
        (kd : Int), (ka : Int), (kb : Int), (kc : Int),
        some (60 * dt.offMin)⟩ := by
    rw [hpf]
    simp only [parsedateGo, stripTrailingComma_id _ hpdnc,
      stripTrailingComma_id _ hpync, stripTrailingComma_id _ htmnc,
      hkd, hky, hkt, htz, if_neg hky100]
  -- step 4: validation and conversion
  have hmcast : (((civilMonthOfSecs (dt.sec + dt.offMin * 60)).toNat : Nat) : Int) =
      civilMonthOfSecs (dt.sec + dt.offMin * 60) := Int.toNat_of_nonneg (by omega)
  simp only [parsedate_to_datetime, hgo]
  rw [if_pos]
  · have hsecs := secsFromCivil_ofSecs (dt.sec + dt.offMin * 60)
    rw [hvy, hmcast, hvd, hva, hvb, hvc]
    rw [show civilYearOfSecs (dt.sec + dt.offMin * 60) =
      civilYearOfSecs (dt.sec + dt.offMin * 60) from rfl]
    rw [hsecs]
    congr 1
    omega
  · refine ⟨?_, ?_, ?_, ?_, ?_, ?_, ?_, ?_, ?_, ?_, ?_, ?_⟩ <;>
      simp only [hvy, hmcast, hvd, hva, hvb, hvc] <;> omega

theorem dayName_head (w : Int) (h0 : 0 ≤ w) (h1 : w ≤ 6) :
    ∃ c0 t, dayNameOf w = c0 :: t ∧ pySpace c0 = false ∧
      isDigitChar c0.toLower = false := by
  interval_cases w <;> exact ⟨_, _, rfl, by decide, by decide⟩

theorem matchesRelative_of_alpha_head (c : Char) (cs : List Char)
    (hc : pySpace c = false) (hd : isDigitChar c.toLower = false) :
    matchesRelative (pyLower (pyStrip (c :: cs))) = false := by
  obtain ⟨u, hu⟩ := pyStrip_cons_of_not_space c cs hc
  rw [hu]
  show matchesRelative (c.toLower :: pyLower u) = false
  unfold matchesRelative
  rw [List.takeWhile_cons_of_neg (by simp [hd])]
  simp

theorem matchesRelative_strftime (dt : PyDateTime) :
    matchesRelative (pyLower (pyStrip (strftimeRfc822 dt))) = false := by
  obtain ⟨hw0, hw1⟩ := weekdayOfDays_range ((dt.sec + dt.offMin * 60) / 86400)
  obtain ⟨c0, t, hdn, hc0, hd0⟩ := dayName_head _ hw0 hw1
  simp only [strftimeRfc822, joinSpace, hdn, List.cons_append]
  exact matchesRelative_of_alpha_head c0 _ hc0 hd0

theorem strftime_ne_nil (dt : PyDateTime) : strftimeRfc822 dt ≠ [] := by
  obtain ⟨hw0, hw1⟩ := weekdayOfDays_range ((dt.sec + dt.offMin * 60) / 86400)
  obtain ⟨c0, t, hdn, _, _⟩ := dayName_head _ hw0 hw1
  simp only [strftimeRfc822, joinSpace, hdn, List.cons_append]
  simp

theorem parse_strftime (now : Int) (dt : PyDateTime) (ho0 : -1439 ≤ dt.offMin)
    (ho1 : dt.offMin ≤ 1439)
    (hy0 : 1000 ≤ civilYearOfSecs (dt.sec + dt.offMin * 60))
    (hy1 : civilYearOfSecs (dt.sec + dt.offMin * 60) ≤ 9999) :
    parse_date_from_text now (strftimeRfc822 dt) = dt.sec := by
  have hne := strftime_ne_nil dt
  have hguard := matchesRelative_strftime dt
  have hpd := parsedate_strftime dt ho0 ho1 hy0 hy1
  simp only [parse_date_from_text, if_neg hne, hguard, Bool.false_eq_true,
    if_false, hpd]

/-- Claim C10, amended: loading the feed written by `write_rss` returns
the items with their titles and links whitespace-trimmed (the loader
strips them; they are equal to the originals exactly when already
trimmed), the same descriptions and image URLs, and each `publishedAt`
equal to the original instant truncated to whole seconds and rendered in
UTC — the serialization is second-granularity RFC-822 text. -/
theorem c10_roundtrip (items : List RssItemIn) (now : Int)
    (h : ∀ i ∈ items, ValidPubDate i.pubDate) :
    load_existing now (write_rss items) =
      items.map (fun i =>
        { title := pyStrip i.title, link := pyStrip i.link,
          description := i.description, pubDate := i.pubDate.sec,
          img := i.img }) := by
  unfold load_existing write_rss
  rw [List.map_map]
  apply List.map_congr_left
  intro i hi
  obtain ⟨ho0, ho1, hy0, hy1⟩ := h i hi
  simp only [Function.comp]
  have hne : strftimeRfc822 i.pubDate ≠ [] := strftime_ne_nil i.pubDate
  rw [if_pos hne]
  rw [parse_strftime now i.pubDate ho0 ho1 hy0 hy1]
  by_cases himg : i.img = []
  · simp [himg]
  · simp [himg]

/-- Claim C10, counterexample: a title with surrounding whitespace is
returned stripped by `load_existing`, so the loaded items do not carry
"the same titles" as written. -/
theorem c10_title_not_preserved :
    (load_existing 999 (write_rss
        [⟨[' ', 'A'], ['L'], [], ⟨0, 0, 0⟩, []⟩])).map FeedItem.title ≠
      [([' ', 'A'] : List Char)] := by
  decide

/-- Claim C10 witness. -/
theorem c10_roundtrip_witness :
    (∀ i ∈ [(⟨['A'], ['L'], ['D'], ⟨0, 0, 0⟩, ['I']⟩ : RssItemIn)],
      ValidPubDate i.pubDate) ∧
    load_existing 5 (write_rss [⟨['A'], ['L'], ['D'], ⟨0, 0, 0⟩, ['I']⟩]) =
      [(⟨['A'], ['L'], ['D'], ⟨0, 0, 0⟩, ['I']⟩ : RssItemIn)].map (fun i =>
        { title := pyStrip i.title, link := pyStrip i.link,
          description := i.description, pubDate := i.pubDate.sec,
          img := i.img }) :=
  ⟨by decide, c10_roundtrip [⟨['A'], ['L'], ['D'], ⟨0, 0, 0⟩, ['I']⟩] 5
    (by decide)⟩
